import Mathlib

/-!
Verification of the go-reorder declaration reordering engine.

This file gives a shallow embedding of the core of the repository
`toejough/go-reorder`: the declaration categorizer
(`internal/categorize`, file `part_012`, second revision), the section
emitters (`emitter.go`), the reassembler (`part_016`), and the
configuration validator (`config.go`).  Declarations are modelled as
trees carrying their decoration state (blank-line spacing and leading
comments), mirroring the `dave/dst` nodes the source manipulates.
Pointer-shared `TypeGroup` records are modelled with an arena keyed by
type name, as the transient `typeGroups` map of the source; buckets
hold type names and are resolved against the final arena, which gives
the same observable values as Go's shared pointers.  Go map iteration
order is unspecified; the arena keeps insertion order, and the final
`sortCategorized` pass canonicalises every ordering the theorems rely
on.
-/

namespace GoReorder

/-- Spacing decoration, mirroring `dst.SpaceType` (None / NewLine / EmptyLine). -/
inductive Spacing where
  | noSpace
  | newLine
  | emptyLine
deriving DecidableEq, Repr

/-- Decoration state of a node: spacing before/after and leading comment lines,
mirroring the `Decs.Before`, `Decs.After` and `Decs.Start` fields used by the source. -/
structure Decs where
  before : Spacing := .noSpace
  after : Spacing := .noSpace
  start : List String := []
deriving DecidableEq, Repr

/-- Type / value expressions, covering the shapes inspected by
`internal/ast/util.go`: identifiers, selector expressions, pointer stars,
generic index expressions, literals, and a generic binary node so that
`ContainsIota` has nontrivial subtrees to walk. -/
inductive Expr where
  | ident (name : String)
  | selector (x : Expr) (sel : String)
  | star (x : Expr)
  | index (x : Expr)
  | lit (s : String)
  | binop (a b : Expr)
deriving DecidableEq, Repr

/-- A `dst.ValueSpec`: names, optional type annotation, values, decorations. -/
structure ValueSpec where
  names : List String
  type : Option Expr := none
  values : List Expr := []
  decs : Decs := {}
deriving DecidableEq, Repr

/-- A `dst.TypeSpec`: the declared name plus an opaque body payload standing
for the right-hand side of the definition. -/
structure TypeSpec where
  name : String
  body : String := ""
  decs : Decs := {}
deriving DecidableEq, Repr

/-- One spec inside a `dst.GenDecl`. -/
inductive Spec where
  | value (v : ValueSpec)
  | typeSpec (t : TypeSpec)
  | importSpec (path : String)
deriving DecidableEq, Repr

/-- The `go/token` keyword of a `GenDecl`. -/
inductive GTok where
  | importTok
  | constTok
  | varTok
  | typeTok
deriving DecidableEq, Repr

/-- A `dst.GenDecl`. -/
structure GenDecl where
  tok : GTok
  lparen : Bool := false
  specs : List Spec
  decs : Decs := {}
deriving DecidableEq, Repr

/-- A `dst.FuncDecl`: name, optional receiver type expression, result type
list, an opaque body payload, and decorations. -/
structure FuncDecl where
  name : String
  recv : Option Expr := none
  results : List Expr := []
  body : String := ""
  decs : Decs := {}
deriving DecidableEq, Repr

/-- A top-level declaration. -/
inductive Decl where
  | gen (g : GenDecl)
  | func (f : FuncDecl)
deriving DecidableEq, Repr

/-! ### `internal/ast/util.go` -/

/-- String prefix test (`strings.HasPrefix`), computed on the character
lists so that concrete instances reduce in the kernel; it agrees with
`String.isPrefixOf`. -/
def strStartsWith (pre s : String) : Bool :=
  pre.toList.isPrefixOf s.toList

/-- Strict character-list order: the lexicographic byte order Go's `<`
imposes on identifier strings. -/
def charListLt : List Char → List Char → Bool
  | [], [] => false
  | [], _ :: _ => true
  | _ :: _, [] => false
  | a :: as, b :: bs =>
    if a < b then true else if b < a then false else charListLt as bs

/-- Strict string order used by the sort comparators (`sort.Slice` less
functions compare names with `<`). -/
def strLt (a b : String) : Bool := charListLt a.data b.data

/-- Reflexive string order: `strLe a b` iff not `strLt b a`. -/
def strLe (a b : String) : Bool := !strLt b a

/-- `ast.IsExported`: true when the name starts with an uppercase letter. -/
def isExported (name : String) : Bool :=
  match name.toList with
  | [] => false
  | c :: _ => c.isUpper

/-- `ast.ExtractTypeName`: the base type name of a type expression. -/
def extractTypeName : Expr → String
  | .ident n => n
  | .selector _ sel => sel
  | .star x => extractTypeName x
  | .index x => extractTypeName x
  | .lit _ => ""
  | .binop _ _ => ""

/-- `ast.ExtractReceiverTypeName`: base type name of a method receiver
(empty when there is no receiver). -/
def extractReceiverTypeName : Option Expr → String
  | none => ""
  | some e => extractTypeName e

/-- `ast.ContainsIota`: whether the expression mentions the `iota` identifier. -/
def containsIota : Expr → Bool
  | .ident n => n == "iota"
  | .selector x _ => containsIota x
  | .star x => containsIota x
  | .index x => containsIota x
  | .lit _ => false
  | .binop a b => containsIota a || containsIota b

/-- `ast.IsIotaBlock`: a const block in which some value spec has a value
containing `iota`. -/
def isIotaBlock (d : GenDecl) : Bool :=
  d.tok == .constTok &&
    d.specs.any fun s =>
      match s with
      | .value vspec => vspec.values.any containsIota
      | _ => false

/-- `ast.ExtractEnumType`: the type name annotated on the first spec of a
const block, or `""` when absent. -/
def extractEnumType (d : GenDecl) : String :=
  match d.specs with
  | [] => ""
  | s :: _ =>
    match s with
    | .value vspec =>
      match vspec.type with
      | some t => extractTypeName t
      | none => ""
    | _ => ""

/-- `categorize.getFirstReturnTypeName`: the type name of the first declared
return value, unwrapping exactly one pointer level; `""` when absent or not
an identifier. -/
def getFirstReturnTypeName (fn : FuncDecl) : String :=
  match fn.results with
  | [] => ""
  | t :: _ =>
    match t with
    | .star x =>
      match x with
      | .ident n => n
      | _ => ""
    | .ident n => n
    | _ => ""

/-! ### Data model of `internal/categorize` -/

/-- `categorize.TypeGroup`: a type with its constructors and methods. -/
structure TypeGroup where
  typeName : String
  typeDecl : Option GenDecl := none
  constructors : List FuncDecl := []
  exportedMethods : List FuncDecl := []
  unexportedMethods : List FuncDecl := []
deriving DecidableEq, Repr

/-- `categorize.EnumGroup`: an enum type paired with its iota const block and
associated methods. -/
structure EnumGroup where
  typeName : String
  typeDecl : Option GenDecl := none
  constDecl : GenDecl
  exportedMethods : List FuncDecl := []
  unexportedMethods : List FuncDecl := []
deriving DecidableEq, Repr

/-- `categorize.CategorizedDecls`: declarations organized by category. -/
structure CategorizedDecls where
  Imports : List Decl := []
  Main : Option FuncDecl := none
  Init : List FuncDecl := []
  ExportedConsts : List ValueSpec := []
  ExportedEnums : List EnumGroup := []
  ExportedVars : List ValueSpec := []
  ExportedTypes : List TypeGroup := []
  ExportedFuncs : List FuncDecl := []
  UnexportedConsts : List ValueSpec := []
  UnexportedEnums : List EnumGroup := []
  UnexportedVars : List ValueSpec := []
  UnexportedTypes : List TypeGroup := []
  UnexportedFuncs : List FuncDecl := []
  Uncategorized : List Decl := []
deriving DecidableEq, Repr

/-! ### The `typeGroups` arena

The source keeps a transient `map[string]*TypeGroup`; the buckets of
`CategorizedDecls` store pointers into it.  We model the map as an
association list with unique keys in insertion order, the buckets as lists
of type names, and resolve names against the final arena, which yields the
same group values as Go's pointer sharing. -/

/-- The transient name-to-group map. -/
abbrev Arena := List (String × TypeGroup)

/-- Lookup in the arena (`typeGroups[name]`). -/
def arenaFind (a : Arena) (n : String) : Option TypeGroup :=
  (a.find? (fun p => p.1 == n)).map (fun p => p.2)

/-- Store into the arena (`typeGroups[name] = g`): replace in place when the
key is present, append otherwise. -/
def arenaSet : Arena → String → TypeGroup → Arena
  | [], n, g => [(n, g)]
  | (m, h) :: rest, n, g =>
    if m == n then (m, g) :: rest else (m, h) :: arenaSet rest n g

/-! ### Sorting (`categorize.SortCategorized`)

The source sorts with `sort.Slice` and a strict by-name comparator.  We use
a deterministic insertion sort; both agree whenever the keys are distinct,
which valid Go units guarantee for every list sorted here. -/

/-- Insert into a list sorted by a string key. -/
def insertOn (key : α → String) (a : α) : List α → List α
  | [] => [a]
  | b :: bs => if strLe (key a) (key b) then a :: b :: bs else b :: insertOn key a bs

/-- Insertion sort by a string key. -/
def sortOn (key : α → String) : List α → List α
  | [] => []
  | a :: as => insertOn key a (sortOn key as)

/-- First declared name of a value spec (`Names[0].Name`; specs with no
names are never sorted by the source, `""` keeps the function total). -/
def specName (v : ValueSpec) : String :=
  match v.names with
  | [] => ""
  | n :: _ => n

/-- Sort the method and constructor lists of one type group. -/
def sortTypeGroup (tg : TypeGroup) : TypeGroup :=
  { tg with
    constructors := sortOn FuncDecl.name tg.constructors
    exportedMethods := sortOn FuncDecl.name tg.exportedMethods
    unexportedMethods := sortOn FuncDecl.name tg.unexportedMethods }

/-- Sort the method lists of one enum group. -/
def sortEnumGroup (eg : EnumGroup) : EnumGroup :=
  { eg with
    exportedMethods := sortOn FuncDecl.name eg.exportedMethods
    unexportedMethods := sortOn FuncDecl.name eg.unexportedMethods }

/-- `categorize.SortCategorized`: sort const/var specs, enum groups and their
methods, type groups and their constructor/method lists, and standalone
functions — all by name.  `Imports`, `Main`, `Init` and `Uncategorized` are
left untouched. -/
def sortCategorized (cat : CategorizedDecls) : CategorizedDecls :=
  { cat with
    ExportedConsts := sortOn specName cat.ExportedConsts
    UnexportedConsts := sortOn specName cat.UnexportedConsts
    ExportedVars := sortOn specName cat.ExportedVars
    UnexportedVars := sortOn specName cat.UnexportedVars
    ExportedEnums := (sortOn EnumGroup.typeName cat.ExportedEnums).map sortEnumGroup
    UnexportedEnums := (sortOn EnumGroup.typeName cat.UnexportedEnums).map sortEnumGroup
    ExportedTypes := (sortOn TypeGroup.typeName cat.ExportedTypes).map sortTypeGroup
    UnexportedTypes := (sortOn TypeGroup.typeName cat.UnexportedTypes).map sortTypeGroup
    ExportedFuncs := sortOn FuncDecl.name cat.ExportedFuncs
    UnexportedFuncs := sortOn FuncDecl.name cat.UnexportedFuncs }

/-! ### `categorize.CategorizeDeclarations` -/

/-- Mutable state threaded through the second categorization pass.  Buckets
that hold `*TypeGroup` pointers in the source hold type names here. -/
structure CatState where
  arena : Arena := []
  enumTypes : List String := []
  Imports : List Decl := []
  Main : Option FuncDecl := none
  Init : List FuncDecl := []
  ExportedConsts : List ValueSpec := []
  UnexportedConsts : List ValueSpec := []
  ExportedVars : List ValueSpec := []
  UnexportedVars : List ValueSpec := []
  ExportedEnums : List (String × GenDecl) := []
  UnexportedEnums : List (String × GenDecl) := []
  ExportedTypeNames : List String := []
  UnexportedTypeNames : List String := []
  ExportedFuncs : List FuncDecl := []
  UnexportedFuncs : List FuncDecl := []
deriving Repr

/-- Pass 1: collect all type names, seeding the arena with empty groups
(`typeGroups[typeName] = &TypeGroup{TypeName: typeName}`). -/
def collectTypeNames (file : List Decl) : Arena :=
  file.foldl
    (fun a d =>
      match d with
      | .gen genDecl =>
        if genDecl.tok == .typeTok then
          genDecl.specs.foldl
            (fun a s =>
              match s with
              | .typeSpec tspec => arenaSet a tspec.name { typeName := tspec.name }
              | _ => a)
            a
        else a
      | _ => a)
    []

/-- Route one const/var value spec to its exported/unexported bucket
(specs without names are skipped, as in the source). -/
def addSpec (isConst : Bool) (st : CatState) : Spec → CatState
  | .value vspec =>
    match vspec.names with
    | [] => st
    | n :: _ =>
      if isExported n then
        if isConst then { st with ExportedConsts := st.ExportedConsts ++ [vspec] }
        else { st with ExportedVars := st.ExportedVars ++ [vspec] }
      else
        if isConst then { st with UnexportedConsts := st.UnexportedConsts ++ [vspec] }
        else { st with UnexportedVars := st.UnexportedVars ++ [vspec] }
  | _ => st

/-- Handle one spec of a `type` declaration: rewrap the spec in a fresh
single-spec `GenDecl` (as the source does to split grouped declarations),
store it as the group's `TypeDecl`, and add the group to the matching type
bucket unless the name is already known to be an enum. -/
def addTypeSpec (st : CatState) : Spec → CatState
  | .typeSpec tspec =>
    let typeName := tspec.name
    let g :=
      match arenaFind st.arena typeName with
      | some g => g
      | none => { typeName := typeName }
    let g := { g with typeDecl := some { tok := .typeTok, specs := [.typeSpec tspec] } }
    let st := { st with arena := arenaSet st.arena typeName g }
    if st.enumTypes.contains typeName then st
    else if isExported typeName then
      { st with ExportedTypeNames := st.ExportedTypeNames ++ [typeName] }
    else
      { st with UnexportedTypeNames := st.UnexportedTypeNames ++ [typeName] }
  | _ => st

/-- Pass 2, one declaration: the main categorization switch. -/
def categorizeStep (st : CatState) (d : Decl) : CatState :=
  match d with
  | .gen genDecl =>
    match genDecl.tok with
    | .importTok => { st with Imports := st.Imports ++ [.gen genDecl] }
    | .constTok =>
      let typeName := if isIotaBlock genDecl then extractEnumType genDecl else ""
      if typeName ≠ "" then
        if isExported typeName then
          { st with
            ExportedEnums := st.ExportedEnums ++ [(typeName, genDecl)]
            enumTypes := st.enumTypes ++ [typeName] }
        else
          { st with
            UnexportedEnums := st.UnexportedEnums ++ [(typeName, genDecl)]
            enumTypes := st.enumTypes ++ [typeName] }
      else
        genDecl.specs.foldl (addSpec true) st
    | .varTok => genDecl.specs.foldl (addSpec false) st
    | .typeTok => genDecl.specs.foldl addTypeSpec st
  | .func fn =>
    if fn.name == "main" && fn.recv.isNone then { st with Main := some fn }
    else if fn.name == "init" && fn.recv.isNone then { st with Init := st.Init ++ [fn] }
    else
      match fn.recv with
      | some _ =>
        let typeName := extractReceiverTypeName fn.recv
        let g :=
          match arenaFind st.arena typeName with
          | some g => g
          | none => { typeName := typeName }
        let g :=
          if isExported fn.name then
            { g with exportedMethods := g.exportedMethods ++ [fn] }
          else
            { g with unexportedMethods := g.unexportedMethods ++ [fn] }
        { st with arena := arenaSet st.arena typeName g }
      | none =>
        let funcName := fn.name
        let isCtorCandidate := strStartsWith "New" funcName || strStartsWith "Must" funcName
        let returnType := getFirstReturnTypeName fn
        let matchedGroup :=
          if isCtorCandidate && returnType != "" then arenaFind st.arena returnType
          else none
        match matchedGroup with
        | some g =>
          { st with
            arena := arenaSet st.arena returnType
              { g with constructors := g.constructors ++ [fn] } }
        | none =>
          if isExported funcName then
            { st with ExportedFuncs := st.ExportedFuncs ++ [fn] }
          else
            { st with UnexportedFuncs := st.UnexportedFuncs ++ [fn] }

/-- Pass 3, one side: pair each raw enum entry with its `TypeGroup` from the
arena, transferring the type declaration and methods, and remove the first
occurrence of the name from the given type bucket. -/
def pairEnums (arena : Arena) (raw : List (String × GenDecl)) (typeNames : List String) :
    List EnumGroup × List String :=
  raw.foldl
    (fun acc p =>
      match arenaFind arena p.1 with
      | some g =>
        (acc.1 ++
            [{ typeName := p.1
               typeDecl := g.typeDecl
               constDecl := p.2
               exportedMethods := g.exportedMethods
               unexportedMethods := g.unexportedMethods }],
          acc.2.erase p.1)
      | none => (acc.1 ++ [{ typeName := p.1, constDecl := p.2 }], acc.2))
    ([], typeNames)

/-- Pass 4: append every method-only group (no type declaration but at least
one method) to the exported/unexported type bucket by name case. -/
def addMethodOnly (arena : Arena) (eNames uNames : List String) :
    List String × List String :=
  arena.foldl
    (fun acc p =>
      if p.2.typeDecl.isNone &&
          (!p.2.exportedMethods.isEmpty || !p.2.unexportedMethods.isEmpty) then
        if isExported p.2.typeName then (acc.1 ++ [p.1], acc.2)
        else (acc.1, acc.2 ++ [p.1])
      else acc)
    (eNames, uNames)

/-- Resolve a list of bucket names against the arena, yielding the group
values the source's pointers observe after all passes. -/
def resolveGroups (arena : Arena) (names : List String) : List TypeGroup :=
  names.filterMap (arenaFind arena)

/-- `categorize.CategorizeDeclarations`: the four passes followed by
`SortCategorized`. -/
def categorizeDeclarations (file : List Decl) : CategorizedDecls :=
  let arena0 := collectTypeNames file
  let st := file.foldl categorizeStep { arena := arena0 }
  let pe := pairEnums st.arena st.ExportedEnums st.ExportedTypeNames
  let pu := pairEnums st.arena st.UnexportedEnums st.UnexportedTypeNames
  let names := addMethodOnly st.arena pe.2 pu.2
  sortCategorized
    { Imports := st.Imports
      Main := st.Main
      Init := st.Init
      ExportedConsts := st.ExportedConsts
      ExportedEnums := pe.1
      ExportedVars := st.ExportedVars
      ExportedTypes := resolveGroups st.arena names.1
      ExportedFuncs := st.ExportedFuncs
      UnexportedConsts := st.UnexportedConsts
      UnexportedEnums := pu.1
      UnexportedVars := st.UnexportedVars
      UnexportedTypes := resolveGroups st.arena names.2
      UnexportedFuncs := st.UnexportedFuncs }

/-! ### Merging and uncategorized collection (`internal/categorize`) -/

/-- Set a func decl to be preceded by one blank line
(`fn.Decs.Before = dst.EmptyLine`). -/
def withEmptyLineFunc (fn : FuncDecl) : FuncDecl :=
  { fn with decs := { fn.decs with before := .emptyLine } }

/-- Set a gen decl to be preceded by one blank line. -/
def withEmptyLineGen (g : GenDecl) : GenDecl :=
  { g with decs := { g.decs with before := .emptyLine } }

/-- `categorize.MergeConstSpecs`: one parenthesized const block from the
given specs, each spec on its own line, with a synthetic leading comment
(the source resets `Decs.Start` to nil before appending the comment). -/
def mergeConstSpecs (specs : List ValueSpec) (comment : String) : GenDecl :=
  { tok := .constTok
    lparen := true
    specs := specs.map fun spec =>
      .value { spec with decs := { spec.decs with before := .newLine, after := .newLine } }
    decs := { before := .emptyLine, start := ["// " ++ comment] } }

/-- `categorize.MergeVarSpecs`: as `mergeConstSpecs` but for `var`. -/
def mergeVarSpecs (specs : List ValueSpec) (comment : String) : GenDecl :=
  { tok := .varTok
    lparen := true
    specs := specs.map fun spec =>
      .value { spec with decs := { spec.decs with before := .newLine, after := .newLine } }
    decs := { before := .emptyLine, start := ["// " ++ comment] } }

/-- Flatten one type group for the uncategorized bucket: type declaration,
constructors, exported then unexported methods, each preceded by a blank line. -/
def flattenTypeGroup (tg : TypeGroup) : List Decl :=
  (match tg.typeDecl with
    | some d => [Decl.gen (withEmptyLineGen d)]
    | none => []) ++
  tg.constructors.map (fun c => Decl.func (withEmptyLineFunc c)) ++
  tg.exportedMethods.map (fun m => Decl.func (withEmptyLineFunc m)) ++
  tg.unexportedMethods.map (fun m => Decl.func (withEmptyLineFunc m))

/-- Flatten one enum group for the uncategorized bucket: type declaration,
iota const block, exported then unexported methods. -/
def flattenEnumGroup (eg : EnumGroup) : List Decl :=
  (match eg.typeDecl with
    | some d => [Decl.gen (withEmptyLineGen d)]
    | none => []) ++
  [Decl.gen (withEmptyLineGen eg.constDecl)] ++
  eg.exportedMethods.map (fun m => Decl.func (withEmptyLineFunc m)) ++
  eg.unexportedMethods.map (fun m => Decl.func (withEmptyLineFunc m))

/-- Stage of `CollectUncategorized` for `ExportedConsts`. -/
def collectExportedConsts (cat : CategorizedDecls) (included : List String) :
    CategorizedDecls :=
  if !included.contains "exported_consts" && !cat.ExportedConsts.isEmpty then
    { cat with
      Uncategorized :=
        cat.Uncategorized ++ [.gen (mergeConstSpecs cat.ExportedConsts "Exported constants.")]
      ExportedConsts := [] }
  else cat

/-- Stage of `CollectUncategorized` for `ExportedVars`. -/
def collectExportedVars (cat : CategorizedDecls) (included : List String) :
    CategorizedDecls :=
  if !included.contains "exported_vars" && !cat.ExportedVars.isEmpty then
    { cat with
      Uncategorized :=
        cat.Uncategorized ++ [.gen (mergeVarSpecs cat.ExportedVars "Exported variables.")]
      ExportedVars := [] }
  else cat

/-- Stage of `CollectUncategorized` for `ExportedFuncs`. -/
def collectExportedFuncs (cat : CategorizedDecls) (included : List String) :
    CategorizedDecls :=
  if !included.contains "exported_funcs" then
    { cat with
      Uncategorized :=
        cat.Uncategorized ++ cat.ExportedFuncs.map (fun f => .func (withEmptyLineFunc f))
      ExportedFuncs := [] }
  else cat

/-- Stage of `CollectUncategorized` for `UnexportedConsts`. -/
def collectUnexportedConsts (cat : CategorizedDecls) (included : List String) :
    CategorizedDecls :=
  if !included.contains "unexported_consts" && !cat.UnexportedConsts.isEmpty then
    { cat with
      Uncategorized :=
        cat.Uncategorized ++
          [.gen (mergeConstSpecs cat.UnexportedConsts "unexported constants.")]
      UnexportedConsts := [] }
  else cat

/-- Stage of `CollectUncategorized` for `UnexportedVars`. -/
def collectUnexportedVars (cat : CategorizedDecls) (included : List String) :
    CategorizedDecls :=
  if !included.contains "unexported_vars" && !cat.UnexportedVars.isEmpty then
    { cat with
      Uncategorized :=
        cat.Uncategorized ++
          [.gen (mergeVarSpecs cat.UnexportedVars "unexported variables.")]
      UnexportedVars := [] }
  else cat

/-- Stage of `CollectUncategorized` for `UnexportedFuncs`. -/
def collectUnexportedFuncs (cat : CategorizedDecls) (included : List String) :
    CategorizedDecls :=
  if !included.contains "unexported_funcs" then
    { cat with
      Uncategorized :=
        cat.Uncategorized ++ cat.UnexportedFuncs.map (fun f => .func (withEmptyLineFunc f))
      UnexportedFuncs := [] }
  else cat

/-- Stage of `CollectUncategorized` for `ExportedTypes`. -/
def collectExportedTypes (cat : CategorizedDecls) (included : List String) :
    CategorizedDecls :=
  if !included.contains "exported_types" then
    { cat with
      Uncategorized := cat.Uncategorized ++ (cat.ExportedTypes.map flattenTypeGroup).flatten
      ExportedTypes := [] }
  else cat

/-- Stage of `CollectUncategorized` for `UnexportedTypes`. -/
def collectUnexportedTypes (cat : CategorizedDecls) (included : List String) :
    CategorizedDecls :=
  if !included.contains "unexported_types" then
    { cat with
      Uncategorized := cat.Uncategorized ++ (cat.UnexportedTypes.map flattenTypeGroup).flatten
      UnexportedTypes := [] }
  else cat

/-- Stage of `CollectUncategorized` for `ExportedEnums`. -/
def collectExportedEnums (cat : CategorizedDecls) (included : List String) :
    CategorizedDecls :=
  if !included.contains "exported_enums" then
    { cat with
      Uncategorized := cat.Uncategorized ++ (cat.ExportedEnums.map flattenEnumGroup).flatten
      ExportedEnums := [] }
  else cat

/-- Stage of `CollectUncategorized` for `UnexportedEnums`. -/
def collectUnexportedEnums (cat : CategorizedDecls) (included : List String) :
    CategorizedDecls :=
  if !included.contains "unexported_enums" then
    { cat with
      Uncategorized := cat.Uncategorized ++ (cat.UnexportedEnums.map flattenEnumGroup).flatten
      UnexportedEnums := [] }
  else cat

/-- `categorize.CollectUncategorized`: move the content of every bucket whose
section name is not in `included` into `Uncategorized` (merged blocks for
consts/vars, flattened declarations otherwise), applying the source's ten
if-blocks in their fixed order.  `Imports`, `Main` and `Init` are never
moved. -/
def collectUncategorized (cat : CategorizedDecls) (included : List String) :
    CategorizedDecls :=
  collectUnexportedEnums
    (collectExportedEnums
      (collectUnexportedTypes
        (collectExportedTypes
          (collectUnexportedFuncs
            (collectUnexportedVars
              (collectUnexportedConsts
                (collectExportedFuncs
                  (collectExportedVars
                    (collectExportedConsts cat included) included) included) included)
                included) included) included) included) included) included

/-- Append an element when the flag holds: one step of the conditional
accumulation used by `FindExcludedSections`. -/
def appendIf (l : List String) (b : Bool) (s : String) : List String :=
  if b then l ++ [s] else l

/-- `categorize.FindExcludedSections`: the names of the sections that hold
content but are not in `included`, in the source's fixed check order.  The
`Imports` bucket has no check in the source. -/
def findExcludedSections (cat : CategorizedDecls) (included : List String) :
    List String :=
  let ex : List String := []
  let ex := appendIf ex (!included.contains "main" && cat.Main.isSome) "main"
  let ex := appendIf ex (!included.contains "init" && !cat.Init.isEmpty) "init"
  let ex := appendIf ex
    (!included.contains "exported_consts" && !cat.ExportedConsts.isEmpty) "exported_consts"
  let ex := appendIf ex
    (!included.contains "exported_vars" && !cat.ExportedVars.isEmpty) "exported_vars"
  let ex := appendIf ex
    (!included.contains "exported_funcs" && !cat.ExportedFuncs.isEmpty) "exported_funcs"
  let ex := appendIf ex
    (!included.contains "exported_types" && !cat.ExportedTypes.isEmpty) "exported_types"
  let ex := appendIf ex
    (!included.contains "exported_enums" && !cat.ExportedEnums.isEmpty) "exported_enums"
  let ex := appendIf ex
    (!included.contains "unexported_consts" && !cat.UnexportedConsts.isEmpty)
    "unexported_consts"
  let ex := appendIf ex
    (!included.contains "unexported_vars" && !cat.UnexportedVars.isEmpty) "unexported_vars"
  let ex := appendIf ex
    (!included.contains "unexported_funcs" && !cat.UnexportedFuncs.isEmpty)
    "unexported_funcs"
  let ex := appendIf ex
    (!included.contains "unexported_types" && !cat.UnexportedTypes.isEmpty)
    "unexported_types"
  let ex := appendIf ex
    (!included.contains "unexported_enums" && !cat.UnexportedEnums.isEmpty)
    "unexported_enums"
  let ex := appendIf ex
    (!included.contains "uncategorized" && !cat.Uncategorized.isEmpty) "uncategorized"
  ex

/-! ### Configuration (`config.go`) -/

/-- `SectionsConfig`. -/
structure SectionsConfig where
  Order : List String
deriving DecidableEq, Repr

/-- `TypesConfig`. -/
structure TypesConfig where
  TypeLayout : List String
  EnumLayout : List String
deriving DecidableEq, Repr

/-- `BehaviorConfig`. -/
structure BehaviorConfig where
  Mode : String
deriving DecidableEq, Repr

/-- `Config`. -/
structure Config where
  Sections : SectionsConfig
  Types : TypesConfig
  Behavior : BehaviorConfig
deriving DecidableEq, Repr

/-- The 14 valid section names (`ValidSections`), in the canonical order. -/
def validSections : List String :=
  ["imports", "main", "init",
   "exported_consts", "exported_enums", "exported_vars", "exported_types",
   "exported_funcs",
   "unexported_consts", "unexported_enums", "unexported_vars", "unexported_types",
   "unexported_funcs", "uncategorized"]

/-- `ValidTypeLayoutElements`. -/
def validTypeLayoutElements : List String :=
  ["typedef", "constructors", "exported_methods", "unexported_methods"]

/-- `ValidEnumLayoutElements`. -/
def validEnumLayoutElements : List String :=
  ["typedef", "iota", "exported_methods", "unexported_methods"]

/-- `ValidModes`. -/
def validModes : List String := ["strict", "warn", "append", "drop"]

/-- The error cases of `Config.Validate`, each carrying the offending name,
as the source embeds it in the error message. -/
inductive ConfigError where
  | unknownSection (s : String)
  | duplicateSection (s : String)
  | unknownTypeLayoutElement (s : String)
  | duplicateTypeLayoutElement (s : String)
  | unknownEnumLayoutElement (s : String)
  | duplicateEnumLayoutElement (s : String)
  | unknownMode (s : String)
deriving DecidableEq, Repr

/-- One validation loop of `Config.Validate`: reject the first name outside
the vocabulary or already seen. -/
def checkNames (valid : List String) (mkUnknown mkDup : String → ConfigError) :
    List String → List String → Option ConfigError
  | _, [] => none
  | seen, s :: rest =>
    if !valid.contains s then some (mkUnknown s)
    else if seen.contains s then some (mkDup s)
    else checkNames valid mkUnknown mkDup (seen ++ [s]) rest

/-- `Config.Validate`: sections, type layout, enum layout, then mode. -/
def validate (c : Config) : Option ConfigError :=
  match checkNames validSections .unknownSection .duplicateSection [] c.Sections.Order with
  | some e => some e
  | none =>
    match checkNames validTypeLayoutElements .unknownTypeLayoutElement
        .duplicateTypeLayoutElement [] c.Types.TypeLayout with
    | some e => some e
    | none =>
      match checkNames validEnumLayoutElements .unknownEnumLayoutElement
          .duplicateEnumLayoutElement [] c.Types.EnumLayout with
      | some e => some e
      | none =>
        if !validModes.contains c.Behavior.Mode then some (.unknownMode c.Behavior.Mode)
        else none

/-- `DefaultConfig`. -/
def defaultConfig : Config :=
  { Sections := { Order := validSections }
    Types :=
      { TypeLayout := ["typedef", "constructors", "exported_methods", "unexported_methods"]
        EnumLayout := ["typedef", "iota", "exported_methods", "unexported_methods"] }
    Behavior := { Mode := "strict" } }

/-! ### Emitters (`emitter.go`) -/

/-- `sectionEmitter`: emits declarations for one section. -/
abbrev SectionEmitter := CategorizedDecls → Config → List Decl

/-- `emitEnumGroup`: render one enum group per the enum layout.  For the
`iota` element the const block's leading comments are cleared and the
synthetic `"// <TypeName> values."` header is appended (the clear-first step
is what keeps repeated runs from accumulating headers). -/
def emitEnumGroup (eg : EnumGroup) (layout : List String) : List Decl :=
  layout.foldl
    (fun decls elem =>
      if elem == "typedef" then
        match eg.typeDecl with
        | some d => decls ++ [.gen (withEmptyLineGen d)]
        | none => decls
      else if elem == "iota" then
        decls ++
          [.gen
            { eg.constDecl with
              decs :=
                { eg.constDecl.decs with
                  before := .emptyLine
                  start := ["// " ++ eg.typeName ++ " values."] } }]
      else if elem == "exported_methods" then
        decls ++ eg.exportedMethods.map (fun m => .func (withEmptyLineFunc m))
      else if elem == "unexported_methods" then
        decls ++ eg.unexportedMethods.map (fun m => .func (withEmptyLineFunc m))
      else decls)
    []

/-- `emitEnumGroups`. -/
def emitEnumGroups (groups : List EnumGroup) (layout : List String) : List Decl :=
  (groups.map (fun eg => emitEnumGroup eg layout)).flatten

/-- `emitTypeGroup`: render one type group per the type layout. -/
def emitTypeGroup (tg : TypeGroup) (layout : List String) : List Decl :=
  layout.foldl
    (fun decls elem =>
      if elem == "typedef" then
        match tg.typeDecl with
        | some d => decls ++ [.gen (withEmptyLineGen d)]
        | none => decls
      else if elem == "constructors" then
        decls ++ tg.constructors.map (fun c => .func (withEmptyLineFunc c))
      else if elem == "exported_methods" then
        decls ++ tg.exportedMethods.map (fun m => .func (withEmptyLineFunc m))
      else if elem == "unexported_methods" then
        decls ++ tg.unexportedMethods.map (fun m => .func (withEmptyLineFunc m))
      else decls)
    []

/-- `emitTypeGroups`. -/
def emitTypeGroups (groups : List TypeGroup) (layout : List String) : List Decl :=
  (groups.map (fun tg => emitTypeGroup tg layout)).flatten

/-- `emitFuncs`: standalone functions, each preceded by one blank line. -/
def emitFuncs (funcs : List FuncDecl) : List Decl :=
  funcs.map (fun fn => .func (withEmptyLineFunc fn))

/-- `emitImports`. -/
def emitImports : SectionEmitter := fun cat _ => cat.Imports

/-- `emitMain`. -/
def emitMain : SectionEmitter := fun cat _ =>
  match cat.Main with
  | none => []
  | some m => [.func m]

/-- `emitInit`: all init functions as collected, order preserved. -/
def emitInit : SectionEmitter := fun cat _ =>
  cat.Init.map (fun fn => .func (withEmptyLineFunc fn))

/-- `emitExportedConsts`. -/
def emitExportedConsts : SectionEmitter := fun cat _ =>
  if cat.ExportedConsts.isEmpty then []
  else [.gen (mergeConstSpecs cat.ExportedConsts "Exported constants.")]

/-- `emitExportedEnums`. -/
def emitExportedEnums : SectionEmitter := fun cat cfg =>
  emitEnumGroups cat.ExportedEnums cfg.Types.EnumLayout

/-- `emitExportedVars`. -/
def emitExportedVars : SectionEmitter := fun cat _ =>
  if cat.ExportedVars.isEmpty then []
  else [.gen (mergeVarSpecs cat.ExportedVars "Exported variables.")]

/-- `emitExportedTypes`. -/
def emitExportedTypes : SectionEmitter := fun cat cfg =>
  emitTypeGroups cat.ExportedTypes cfg.Types.TypeLayout

/-- `emitExportedFuncs`. -/
def emitExportedFuncs : SectionEmitter := fun cat _ => emitFuncs cat.ExportedFuncs

/-- `emitUnexportedConsts`. -/
def emitUnexportedConsts : SectionEmitter := fun cat _ =>
  if cat.UnexportedConsts.isEmpty then []
  else [.gen (mergeConstSpecs cat.UnexportedConsts "unexported constants.")]

/-- `emitUnexportedEnums`. -/
def emitUnexportedEnums : SectionEmitter := fun cat cfg =>
  emitEnumGroups cat.UnexportedEnums cfg.Types.EnumLayout

/-- `emitUnexportedVars`. -/
def emitUnexportedVars : SectionEmitter := fun cat _ =>
  if cat.UnexportedVars.isEmpty then []
  else [.gen (mergeVarSpecs cat.UnexportedVars "unexported variables.")]

/-- `emitUnexportedTypes`. -/
def emitUnexportedTypes : SectionEmitter := fun cat cfg =>
  emitTypeGroups cat.UnexportedTypes cfg.Types.TypeLayout

/-- `emitUnexportedFuncs`. -/
def emitUnexportedFuncs : SectionEmitter := fun cat _ => emitFuncs cat.UnexportedFuncs

/-- `emitUncategorized`. -/
def emitUncategorized : SectionEmitter := fun cat _ => cat.Uncategorized

/-- The `emitters` registry, in the source's literal order. -/
def emitters : List (String × SectionEmitter) :=
  [("imports", emitImports),
   ("main", emitMain),
   ("init", emitInit),
   ("exported_consts", emitExportedConsts),
   ("exported_enums", emitExportedEnums),
   ("exported_vars", emitExportedVars),
   ("exported_types", emitExportedTypes),
   ("exported_funcs", emitExportedFuncs),
   ("unexported_consts", emitUnexportedConsts),
   ("unexported_enums", emitUnexportedEnums),
   ("unexported_vars", emitUnexportedVars),
   ("unexported_types", emitUnexportedTypes),
   ("unexported_funcs", emitUnexportedFuncs),
   ("uncategorized", emitUncategorized)]

/-- `getEmitter`: the emitter for a section name, or `none` when unknown. -/
def getEmitter (sectionName : String) : Option SectionEmitter :=
  emitters.lookup sectionName

/-! ### Reassembly (`part_016`) -/

/-- `reassembleDeclarationsWithConfig`: unless in drop mode, fold unlisted
buckets into `Uncategorized`, then emit every section of the order in turn,
skipping names with no emitter. -/
def reassembleDeclarationsWithConfig (cat : CategorizedDecls) (cfg : Config) :
    List Decl :=
  let cat :=
    if cfg.Behavior.Mode != "drop" then collectUncategorized cat cfg.Sections.Order
    else cat
  (cfg.Sections.Order.map
    (fun sectionName =>
      match getEmitter sectionName with
      | some emitter => emitter cat cfg
      | none => [])).flatten

/-- `FileWithConfig` at the declaration level: categorize then reassemble. -/
def fileWithConfig (file : List Decl) (cfg : Config) : List Decl :=
  reassembleDeclarationsWithConfig (categorizeDeclarations file) cfg

/-- Modelled from the spec: the strict-mode rejecting caller.  The sources
under `src/` contain `FindExcludedSections` and the tests that demand the
rejection (`TestStrictModeError`), but the caller that performs it (the
current `reassemble`/driver revision) is absent; per the spec, when
`Mode = strict` and any nonempty unconfigured section exists the call must
fail before emitting any output, naming every offending section.  The
offending sections are computed by the source's `FindExcludedSections`. -/
def fileWithConfigChecked (file : List Decl) (cfg : Config) :
    Except (List String) (List Decl) :=
  let cat := categorizeDeclarations file
  let excluded := findExcludedSections cat cfg.Sections.Order
  if cfg.Behavior.Mode == "strict" && !excluded.isEmpty then .error excluded
  else .ok (reassembleDeclarationsWithConfig cat cfg)

/-! ### Order lemmas for the sort comparator -/

theorem charListLt_irrefl (a : List Char) : charListLt a a = false := by
  induction a with
  | nil => rfl
  | cons c cs ih => simp [charListLt, ih]

theorem charListLt_asymm {a b : List Char} (h : charListLt a b = true) :
    charListLt b a = false := by
  induction a generalizing b with
  | nil =>
    cases b with
    | nil => simp [charListLt] at h
    | cons d ds => simp [charListLt]
  | cons c cs ih =>
    cases b with
    | nil => simp [charListLt] at h
    | cons d ds =>
      by_cases hcd : c < d
      · have hdc : ¬ d < c := fun h2 => absurd hcd (lt_asymm h2)
        simp [charListLt, hcd, hdc]
      · by_cases hdc : d < c
        · simp [charListLt, hcd, hdc] at h
        · simp only [charListLt, if_neg hcd, if_neg hdc] at h
          simp only [charListLt, if_neg hdc, if_neg hcd]
          exact ih h

theorem charListLt_eq_of_not {a b : List Char} (h1 : charListLt a b = false)
    (h2 : charListLt b a = false) : a = b := by
  induction a generalizing b with
  | nil =>
    cases b with
    | nil => rfl
    | cons d ds => simp [charListLt] at h1
  | cons c cs ih =>
    cases b with
    | nil => simp [charListLt] at h2
    | cons d ds =>
      by_cases hcd : c < d
      · simp [charListLt, hcd] at h1
      · by_cases hdc : d < c
        · simp [charListLt, hdc] at h2
        · have : c = d := le_antisymm (le_of_not_lt hdc) (le_of_not_lt hcd)
          subst this
          simp only [charListLt, if_neg hcd, if_neg hdc] at h1 h2
          rw [ih h1 h2]

theorem charListLt_trans {a b c : List Char} (h1 : charListLt a b = true)
    (h2 : charListLt b c = true) : charListLt a c = true := by
  induction a generalizing b c with
  | nil =>
    cases c with
    | nil =>
      cases b with
      | nil => exact h1
      | cons d ds => simp [charListLt] at h2
    | cons e es => simp [charListLt]
  | cons x xs ih =>
    cases b with
    | nil => simp [charListLt] at h1
    | cons y ys =>
      cases c with
      | nil => simp [charListLt] at h2
      | cons z zs =>
        by_cases hxy : x < y
        · by_cases hyz : y < z
          · have hxz : x < z := lt_trans hxy hyz
            simp [charListLt, hxz]
          · by_cases hzy : z < y
            · simp [charListLt, hyz, hzy] at h2
            · have : y = z := le_antisymm (le_of_not_lt hzy) (le_of_not_lt hyz)
              subst this
              simp [charListLt, hxy]
        · by_cases hyx : y < x
          · simp [charListLt, hxy, hyx] at h1
          · have hxyeq : x = y := le_antisymm (le_of_not_lt hyx) (le_of_not_lt hxy)
            subst hxyeq
            simp only [charListLt, if_neg hxy, if_neg hyx] at h1
            by_cases hyz : x < z
            · simp [charListLt, hyz]
            · by_cases hzy : z < x
              · simp [charListLt, hyz, hzy] at h2
              · simp only [charListLt, if_neg hyz, if_neg hzy] at h2 ⊢
                exact ih h1 h2

theorem strLe_total (a b : String) : strLe a b = true ∨ strLe b a = true := by
  rcases h : charListLt b.data a.data with _ | _
  · left; simp [strLe, strLt, h]
  · right; simp [strLe, strLt, charListLt_asymm h]

theorem strLe_refl (a : String) : strLe a a = true := by
  simp [strLe, strLt, charListLt_irrefl]

theorem strLe_trans {a b c : String} (h1 : strLe a b = true) (h2 : strLe b c = true) :
    strLe a c = true := by
  simp only [strLe, strLt, Bool.not_eq_true'] at h1 h2 ⊢
  cases h : charListLt c.data a.data
  · rfl
  · cases h3 : charListLt b.data c.data
    · have hbc := charListLt_eq_of_not h3 h2
      rw [hbc] at h1
      rw [h] at h1
      exact h1
    · have hba := charListLt_trans h3 h
      rw [hba] at h1
      exact h1

theorem strLe_antisymm {a b : String} (h1 : strLe a b = true) (h2 : strLe b a = true) :
    a = b := by
  simp only [strLe, strLt, Bool.not_eq_true'] at h1 h2
  have hd : a.data = b.data := charListLt_eq_of_not h2 h1
  cases a
  cases b
  exact congrArg String.mk hd

/-! ### Insertion sort lemmas -/

theorem insertOn_perm (key : α → String) (a : α) (l : List α) :
    List.Perm (insertOn key a l) (a :: l) := by
  induction l with
  | nil => simp [insertOn]
  | cons b bs ih =>
    by_cases h : strLe (key a) (key b) = true
    · simp [insertOn, h]
    · simp only [insertOn, if_neg h]
      exact ((ih.cons b).trans (List.Perm.swap a b bs))

theorem sortOn_perm (key : α → String) (l : List α) :
    List.Perm (sortOn key l) l := by
  induction l with
  | nil => simp [sortOn]
  | cons a as ih =>
    exact (insertOn_perm key a (sortOn key as)).trans (ih.cons a)

/-- The sortedness predicate for a key function. -/
def SortedOn (key : α → String) (l : List α) : Prop :=
  List.Pairwise (fun x y => strLe (key x) (key y) = true) l

theorem insertOn_sorted (key : α → String) (a : α) {l : List α}
    (h : SortedOn key l) : SortedOn key (insertOn key a l) := by
  induction l with
  | nil => simp [insertOn, SortedOn]
  | cons b bs ih =>
    rcases h with _ | ⟨hb, hbs⟩
    by_cases hab : strLe (key a) (key b) = true
    · simp only [insertOn, if_pos hab]
      refine List.Pairwise.cons ?_ (List.Pairwise.cons hb hbs)
      intro x hx
      rcases List.mem_cons.mp hx with rfl | hx2
      · exact hab
      · exact strLe_trans hab (hb _ hx2)
    · simp only [insertOn, if_neg hab]
      refine List.Pairwise.cons ?_ (ih hbs)
      intro x hx
      have hx3 : x ∈ a :: bs := (insertOn_perm key a bs).mem_iff.mp hx
      rcases List.mem_cons.mp hx3 with rfl | hx4
      · rcases strLe_total (key x) (key b) with h1 | h1
        · exact absurd h1 hab
        · exact h1
      · exact hb _ hx4

theorem sortOn_sorted (key : α → String) (l : List α) : SortedOn key (sortOn key l) := by
  induction l with
  | nil => simp [sortOn, SortedOn]
  | cons a as ih => exact insertOn_sorted key a ih

theorem insertOn_of_le_all (key : α → String) (a : α) {l : List α}
    (h : ∀ x ∈ l, strLe (key a) (key x) = true) : insertOn key a l = a :: l := by
  cases l with
  | nil => rfl
  | cons b bs => simp [insertOn, h b (by simp)]

/-- Sorting a sorted list leaves it unchanged. -/
theorem sortOn_eq_self (key : α → String) {l : List α} (h : SortedOn key l) :
    sortOn key l = l := by
  induction l with
  | nil => rfl
  | cons a as ih =>
    rcases h with _ | ⟨ha, has⟩
    rw [sortOn, ih has, insertOn_of_le_all key a ha]

/-- Sorting is idempotent. -/
theorem sortOn_idem (key : α → String) (l : List α) :
    sortOn key (sortOn key l) = sortOn key l :=
  sortOn_eq_self key (sortOn_sorted key l)

/-! ### Claim C10: unknown section names are skipped -/

theorem lookup_eq_none_of_ne {β : Type _} (s : String) (l : List (String × β))
    (h : ∀ p ∈ l, p.1 ≠ s) : l.lookup s = none := by
  induction l with
  | nil => rfl
  | cons p ps ih =>
    cases p with
    | mk a b =>
      have h1 : (s == a) = false := by
        simp only [beq_eq_false_iff_ne, ne_eq]
        exact fun he => (h (a, b) (by simp)) he.symm
      simp only [List.lookup, h1]
      exact ih (fun q hq => h q (by simp [hq]))

/-- Keys of the emitter registry are exactly the valid section names. -/
theorem emitters_key_mem {p : String × SectionEmitter} (hp : p ∈ emitters) :
    p.1 ∈ validSections := by
  simp only [emitters, List.mem_cons, List.not_mem_nil, or_false] at hp
  rcases hp with rfl | rfl | rfl | rfl | rfl | rfl | rfl | rfl | rfl | rfl | rfl | rfl |
    rfl | rfl <;> decide

/-- A name outside the 14-name vocabulary has no emitter. -/
theorem getEmitter_eq_none {s : String} (hs : s ∉ validSections) : getEmitter s = none := by
  apply lookup_eq_none_of_ne
  intro p hp he
  exact hs (he ▸ emitters_key_mem hp)

theorem contains_middle {s t : String} (o1 o2 : List String) (h : s ≠ t) :
    (o1 ++ s :: o2).contains t = (o1 ++ o2).contains t := by
  simp only [List.elem_eq_mem, decide_eq_decide]
  constructor
  · intro hm
    rcases List.mem_append.mp hm with h1 | h1
    · exact List.mem_append.mpr (Or.inl h1)
    · rcases List.mem_cons.mp h1 with rfl | h2
      · exact absurd rfl h
      · exact List.mem_append.mpr (Or.inr h2)
  · intro hm
    rcases List.mem_append.mp hm with h1 | h1
    · exact List.mem_append.mpr (Or.inl h1)
    · exact List.mem_append.mpr (Or.inr (List.mem_cons.mpr (Or.inr h1)))

/-- `collectUncategorized` only consults membership of the collectable
section names; two included-lists that agree there collect identically. -/
theorem collectUncategorized_congr (cat : CategorizedDecls) {inc1 inc2 : List String}
    (h : ∀ t ∈ validSections, inc1.contains t = inc2.contains t) :
    collectUncategorized cat inc1 = collectUncategorized cat inc2 := by
  have e1 : ∀ c, collectExportedConsts c inc1 = collectExportedConsts c inc2 := by
    intro c; unfold collectExportedConsts; rw [h "exported_consts" (by decide)]
  have e2 : ∀ c, collectExportedVars c inc1 = collectExportedVars c inc2 := by
    intro c; unfold collectExportedVars; rw [h "exported_vars" (by decide)]
  have e3 : ∀ c, collectExportedFuncs c inc1 = collectExportedFuncs c inc2 := by
    intro c; unfold collectExportedFuncs; rw [h "exported_funcs" (by decide)]
  have e4 : ∀ c, collectUnexportedConsts c inc1 = collectUnexportedConsts c inc2 := by
    intro c; unfold collectUnexportedConsts; rw [h "unexported_consts" (by decide)]
  have e5 : ∀ c, collectUnexportedVars c inc1 = collectUnexportedVars c inc2 := by
    intro c; unfold collectUnexportedVars; rw [h "unexported_vars" (by decide)]
  have e6 : ∀ c, collectUnexportedFuncs c inc1 = collectUnexportedFuncs c inc2 := by
    intro c; unfold collectUnexportedFuncs; rw [h "unexported_funcs" (by decide)]
  have e7 : ∀ c, collectExportedTypes c inc1 = collectExportedTypes c inc2 := by
    intro c; unfold collectExportedTypes; rw [h "exported_types" (by decide)]
  have e8 : ∀ c, collectUnexportedTypes c inc1 = collectUnexportedTypes c inc2 := by
    intro c; unfold collectUnexportedTypes; rw [h "unexported_types" (by decide)]
  have e9 : ∀ c, collectExportedEnums c inc1 = collectExportedEnums c inc2 := by
    intro c; unfold collectExportedEnums; rw [h "exported_enums" (by decide)]
  have e10 : ∀ c, collectUnexportedEnums c inc1 = collectUnexportedEnums c inc2 := by
    intro c; unfold collectUnexportedEnums; rw [h "unexported_enums" (by decide)]
  unfold collectUncategorized
  rw [e1, e2, e3, e4, e5, e6, e7, e8, e9, e10]

/-- Inserting a name outside the vocabulary changes nothing for collection. -/
theorem collectUncategorized_middle (cat : CategorizedDecls) {s : String}
    (o1 o2 : List String) (hs : s ∉ validSections) :
    collectUncategorized cat (o1 ++ s :: o2) = collectUncategorized cat (o1 ++ o2) := by
  have hne : ∀ t ∈ validSections, s ≠ t := fun t ht he => hs (he ▸ ht)
  exact collectUncategorized_congr cat (fun t ht => contains_middle o1 o2 (hne t ht))

/-- Every registered emitter reads only the categorized declarations and the
layout configuration, never the section order. -/
theorem emitter_ignores_sections (n : String) (cat : CategorizedDecls) (c1 c2 : Config)
    (h : c1.Types = c2.Types) :
    (match getEmitter n with
      | some e => e cat c1
      | none => ([] : List Decl)) =
    (match getEmitter n with
      | some e => e cat c2
      | none => ([] : List Decl)) := by
  by_cases h1 : n ∈ validSections
  · have hl : c1.Types.TypeLayout = c2.Types.TypeLayout := by rw [h]
    have he : c1.Types.EnumLayout = c2.Types.EnumLayout := by rw [h]
    simp only [validSections, List.mem_cons, List.not_mem_nil, or_false] at h1
    rcases h1 with rfl | rfl | rfl | rfl | rfl | rfl | rfl | rfl | rfl | rfl | rfl | rfl |
      rfl | rfl <;>
      simp [getEmitter, emitters, List.lookup, emitImports, emitMain, emitInit,
        emitExportedConsts, emitExportedEnums, emitExportedVars, emitExportedTypes,
        emitExportedFuncs, emitUnexportedConsts, emitUnexportedEnums, emitUnexportedVars,
        emitUnexportedTypes, emitUnexportedFuncs, emitUncategorized, hl, he]
  · rw [getEmitter_eq_none h1]

/-- Congruence of section emission over a list of section names. -/
theorem emit_map_congr (l : List String) (cat : CategorizedDecls) (c1 c2 : Config)
    (h : c1.Types = c2.Types) :
    (l.map fun n =>
      match getEmitter n with
      | some e => e cat c1
      | none => ([] : List Decl)) =
    (l.map fun n =>
      match getEmitter n with
      | some e => e cat c2
      | none => ([] : List Decl)) :=
  List.map_congr_left (fun n _ => emitter_ignores_sections n cat c1 c2 h)

/-- C10: reassembly is total over arbitrary section lists: a name in
`Sections.Order` that is not one of the 14 registered section names has no
emitter (`getEmitter` returns `none`), the entry is silently skipped, and
the output is the same as if the entry were absent, with all remaining
sections emitted in order. -/
theorem unknown_section_skipped (cat : CategorizedDecls) (cfg : Config)
    (s : String) (o1 o2 : List String) (hs : s ∉ validSections)
    (horder : cfg.Sections.Order = o1 ++ s :: o2) :
    getEmitter s = none ∧
      reassembleDeclarationsWithConfig cat cfg =
        reassembleDeclarationsWithConfig cat
          { cfg with Sections := { Order := o1 ++ o2 } } := by
  refine ⟨getEmitter_eq_none hs, ?_⟩
  have htypes : cfg.Types = ({ cfg with Sections := { Order := o1 ++ o2 } } : Config).Types :=
    rfl
  unfold reassembleDeclarationsWithConfig
  simp only [horder]
  rw [collectUncategorized_middle cat o1 o2 hs]
  rw [List.map_append, List.map_cons, getEmitter_eq_none hs, List.map_append]
  simp only [List.flatten_append, List.flatten_cons, List.nil_append]
  rw [emit_map_congr o1 _ cfg _ htypes, emit_map_congr o2 _ cfg _ htypes]

/-- Witness for the unknown-section claim: a concrete order containing
`"bogus_section"` between `"imports"` and `"main"`. -/
theorem unknown_section_skipped_witness :
    getEmitter "bogus_section" = none ∧
      reassembleDeclarationsWithConfig {}
          { Sections := { Order := ["imports", "bogus_section", "main"] }
            Types := { TypeLayout := [], EnumLayout := [] }
            Behavior := { Mode := "append" } } =
        reassembleDeclarationsWithConfig {}
          { Sections := { Order := ["imports"] ++ ["main"] }
            Types := { TypeLayout := [], EnumLayout := [] }
            Behavior := { Mode := "append" } } :=
  unknown_section_skipped {}
    { Sections := { Order := ["imports", "bogus_section", "main"] }
      Types := { TypeLayout := [], EnumLayout := [] }
      Behavior := { Mode := "append" } }
    "bogus_section" ["imports"] ["main"] (by decide) rfl

/-! ### Claim C9: `Config.Validate` -/

/-- The conjunction `Config.Validate` is specified to enforce: valid and
duplicate-free section order, valid and duplicate-free layouts, and a valid
mode. -/
def ConfigValid (c : Config) : Prop :=
  (∀ s ∈ c.Sections.Order, s ∈ validSections) ∧ c.Sections.Order.Nodup ∧
  (∀ s ∈ c.Types.TypeLayout, s ∈ validTypeLayoutElements) ∧ c.Types.TypeLayout.Nodup ∧
  (∀ s ∈ c.Types.EnumLayout, s ∈ validEnumLayoutElements) ∧ c.Types.EnumLayout.Nodup ∧
  c.Behavior.Mode ∈ validModes

instance (c : Config) : Decidable (ConfigValid c) := by
  unfold ConfigValid
  infer_instance

/-- What each validation error identifies about the config. -/
def offends (c : Config) : ConfigError → Prop
  | .unknownSection s => s ∈ c.Sections.Order ∧ s ∉ validSections
  | .duplicateSection s => 2 ≤ c.Sections.Order.count s
  | .unknownTypeLayoutElement s => s ∈ c.Types.TypeLayout ∧ s ∉ validTypeLayoutElements
  | .duplicateTypeLayoutElement s => 2 ≤ c.Types.TypeLayout.count s
  | .unknownEnumLayoutElement s => s ∈ c.Types.EnumLayout ∧ s ∉ validEnumLayoutElements
  | .duplicateEnumLayoutElement s => 2 ≤ c.Types.EnumLayout.count s
  | .unknownMode s => s = c.Behavior.Mode ∧ s ∉ validModes

instance (c : Config) (e : ConfigError) : Decidable (offends c e) := by
  cases e <;> (unfold offends; infer_instance)

theorem checkNames_eq_none_iff (valid : List String) (mkU mkD : String → ConfigError) :
    ∀ (l seen : List String),
      checkNames valid mkU mkD seen l = none ↔
        ((∀ s ∈ l, s ∈ valid) ∧ (∀ s ∈ l, s ∉ seen) ∧ l.Nodup) := by
  intro l
  induction l with
  | nil => simp [checkNames]
  | cons s rest ih =>
    intro seen
    by_cases hv : s ∈ valid
    · have hv' : (!valid.contains s) = false := by
        simp [List.elem_eq_mem, hv]
      by_cases hseen : s ∈ seen
      · have hs' : seen.contains s = true := by simp [List.elem_eq_mem, hseen]
        simp only [checkNames, hv', Bool.false_eq_true, if_false, hs', if_true]
        constructor
        · intro h; cases h
        · rintro ⟨-, h2, -⟩
          exact absurd hseen (h2 s (by simp))
      · have hs' : seen.contains s = false := by simp [List.elem_eq_mem, hseen]
        simp only [checkNames, hv', Bool.false_eq_true, if_false, hs', if_true]
        rw [ih (seen ++ [s])]
        constructor
        · rintro ⟨h1, h2, h3⟩
          refine ⟨?_, ?_, ?_⟩
          · intro x hx
            rcases List.mem_cons.mp hx with rfl | hx2
            · exact hv
            · exact h1 x hx2
          · intro x hx
            rcases List.mem_cons.mp hx with rfl | hx2
            · exact hseen
            · intro hxs
              exact (h2 x hx2) (List.mem_append.mpr (Or.inl hxs))
          · refine List.nodup_cons.mpr ⟨?_, h3⟩
            intro hsrest
            exact (h2 s hsrest) (List.mem_append.mpr (Or.inr (by simp)))
        · rintro ⟨h1, h2, h3⟩
          rcases List.nodup_cons.mp h3 with ⟨hsr, h3'⟩
          refine ⟨fun x hx => h1 x (by simp [hx]), ?_, h3'⟩
          intro x hx hxm
          rcases List.mem_append.mp hxm with h4 | h4
          · exact (h2 x (by simp [hx])) h4
          · rcases List.mem_singleton.mp h4 with rfl
            exact hsr hx
    · have hv' : (!valid.contains s) = true := by
        simp [List.elem_eq_mem, hv]
      simp only [checkNames, hv', if_true]
      constructor
      · intro h; cases h
      · rintro ⟨h1, -, -⟩
        exact absurd (h1 s (by simp)) hv

theorem checkNames_eq_some (valid : List String) (mkU mkD : String → ConfigError) :
    ∀ (l seen : List String) (e : ConfigError),
      checkNames valid mkU mkD seen l = some e →
        (∃ s, e = mkU s ∧ s ∈ l ∧ s ∉ valid) ∨
        (∃ s, e = mkD s ∧ s ∈ l ∧ 2 ≤ (seen ++ l).count s) := by
  intro l
  induction l with
  | nil => intro seen e h; cases h
  | cons s rest ih =>
    intro seen e h
    by_cases hv : s ∈ valid
    · have hv' : (!valid.contains s) = false := by simp [List.elem_eq_mem, hv]
      by_cases hseen : s ∈ seen
      · have hs' : seen.contains s = true := by simp [List.elem_eq_mem, hseen]
        simp only [checkNames, hv', Bool.false_eq_true, if_false, hs', if_true,
          Option.some.injEq] at h
        refine Or.inr ⟨s, h.symm, by simp, ?_⟩
        have h1 : 1 ≤ seen.count s := List.one_le_count_iff.mpr hseen
        have h2 : 1 ≤ (s :: rest).count s := List.one_le_count_iff.mpr (by simp)
        calc 2 ≤ seen.count s + (s :: rest).count s := by omega
        _ = (seen ++ s :: rest).count s := (List.count_append _ _ _).symm
      · have hs' : seen.contains s = false := by simp [List.elem_eq_mem, hseen]
        simp only [checkNames, hv', Bool.false_eq_true, if_false, hs', if_true] at h
        rcases ih (seen ++ [s]) e h with ⟨x, he, hx, hxv⟩ | ⟨x, he, hx, hcount⟩
        · exact Or.inl ⟨x, he, by simp [hx], hxv⟩
        · refine Or.inr ⟨x, he, by simp [hx], ?_⟩
          calc 2 ≤ (seen ++ [s] ++ rest).count x := hcount
          _ = (seen ++ s :: rest).count x := by
              rw [List.append_assoc, List.singleton_append]
    · have hv' : (!valid.contains s) = true := by simp [List.elem_eq_mem, hv]
      simp only [checkNames, hv', if_true, Option.some.injEq] at h
      exact Or.inl ⟨s, h.symm, by simp, hv⟩

/-- C9: `Config.Validate` succeeds exactly when every name in
`Sections.Order` is one of the 14 valid section names with no duplicates,
both layouts are drawn from their four-element vocabularies with no
duplicates, and the mode is one of strict/warn/append/drop; and every error
it returns identifies an offending name. -/
theorem config_validate_iff (c : Config) :
    (validate c = none ↔ ConfigValid c) ∧
      (∀ e, validate c = some e → offends c e) := by
  constructor
  · unfold validate
    cases h1 : checkNames validSections .unknownSection .duplicateSection []
        c.Sections.Order with
    | some e =>
      refine iff_of_false (by simp) (fun hc => ?_)
      rw [(checkNames_eq_none_iff _ _ _ _ _).mpr ⟨hc.1, by simp, hc.2.1⟩] at h1
      cases h1
    | none =>
      have hsec := (checkNames_eq_none_iff validSections .unknownSection
        .duplicateSection c.Sections.Order []).mp h1
      cases h2 : checkNames validTypeLayoutElements .unknownTypeLayoutElement
          .duplicateTypeLayoutElement [] c.Types.TypeLayout with
      | some e =>
        refine iff_of_false (by simp) (fun hc => ?_)
        rw [(checkNames_eq_none_iff _ _ _ _ _).mpr ⟨hc.2.2.1, by simp, hc.2.2.2.1⟩] at h2
        cases h2
      | none =>
        have hty := (checkNames_eq_none_iff validTypeLayoutElements
          .unknownTypeLayoutElement .duplicateTypeLayoutElement c.Types.TypeLayout []).mp h2
        cases h3 : checkNames validEnumLayoutElements .unknownEnumLayoutElement
            .duplicateEnumLayoutElement [] c.Types.EnumLayout with
        | some e =>
          refine iff_of_false (by simp) (fun hc => ?_)
          rw [(checkNames_eq_none_iff _ _ _ _ _).mpr
            ⟨hc.2.2.2.2.1, by simp, hc.2.2.2.2.2.1⟩] at h3
          cases h3
        | none =>
          have hen := (checkNames_eq_none_iff validEnumLayoutElements
            .unknownEnumLayoutElement .duplicateEnumLayoutElement c.Types.EnumLayout []).mp h3
          by_cases hm : c.Behavior.Mode ∈ validModes
          · have hm' : (!validModes.contains c.Behavior.Mode) = false := by
              simp [List.elem_eq_mem, hm]
            rw [hm']
            simp only [Bool.false_eq_true, if_false]
            exact iff_of_true trivial ⟨hsec.1, hsec.2.2, hty.1, hty.2.2, hen.1, hen.2.2, hm⟩
          · have hm' : (!validModes.contains c.Behavior.Mode) = true := by
              simp [List.elem_eq_mem, hm]
            rw [hm']
            simp only [if_true]
            exact iff_of_false (by simp) (fun hc => hm hc.2.2.2.2.2.2)
  · intro e he
    unfold validate at he
    cases h1 : checkNames validSections .unknownSection .duplicateSection []
        c.Sections.Order with
    | some e1 =>
      rw [h1] at he
      cases he
      rcases checkNames_eq_some _ _ _ _ _ _ h1 with ⟨x, rfl, hx, hxv⟩ | ⟨x, rfl, hx, hc⟩
      · exact ⟨hx, hxv⟩
      · simpa using hc
    | none =>
      rw [h1] at he
      cases h2 : checkNames validTypeLayoutElements .unknownTypeLayoutElement
          .duplicateTypeLayoutElement [] c.Types.TypeLayout with
      | some e2 =>
        rw [h2] at he
        cases he
        rcases checkNames_eq_some _ _ _ _ _ _ h2 with ⟨x, rfl, hx, hxv⟩ | ⟨x, rfl, hx, hc⟩
        · exact ⟨hx, hxv⟩
        · simpa using hc
      | none =>
        rw [h2] at he
        cases h3 : checkNames validEnumLayoutElements .unknownEnumLayoutElement
            .duplicateEnumLayoutElement [] c.Types.EnumLayout with
        | some e3 =>
          rw [h3] at he
          cases he
          rcases checkNames_eq_some _ _ _ _ _ _ h3 with ⟨x, rfl, hx, hxv⟩ | ⟨x, rfl, hx, hc⟩
          · exact ⟨hx, hxv⟩
          · simpa using hc
        | none =>
          rw [h3] at he
          by_cases hm : c.Behavior.Mode ∈ validModes
          · have hm' : (!validModes.contains c.Behavior.Mode) = false := by
              simp [List.elem_eq_mem, hm]
            rw [hm'] at he
            cases he
          · have hm' : (!validModes.contains c.Behavior.Mode) = true := by
              simp [List.elem_eq_mem, hm]
            rw [hm'] at he
            cases he
            exact ⟨rfl, hm⟩

/-- Witness for the validation claim: the default config validates, and a
config with a bogus section name yields the error naming it. -/
theorem config_validate_iff_witness :
    validate defaultConfig = none ∧
      offends
        { Sections := { Order := ["imports", "bogus"] }
          Types := { TypeLayout := [], EnumLayout := [] }
          Behavior := { Mode := "strict" } }
        (.unknownSection "bogus") :=
  ⟨(config_validate_iff defaultConfig).1.mpr (by decide),
    (config_validate_iff _).2 _ (by decide)⟩

/-! ### Characterizing the categorization fold

The second pass is a left fold of `categorizeStep`.  The bucket fields that
do not go through the arena accumulate list effects that depend only on the
declaration (and, for type names, on the enum set seen so far); the lemmas
here compute them. -/

/-- Exported value specs of a spec list (first name decides). -/
def eSpecsOf (specs : List Spec) : List ValueSpec :=
  specs.filterMap fun sp =>
    match sp with
    | .value v =>
      match v.names with
      | [] => none
      | n :: _ => if isExported n then some v else none
    | _ => none

/-- Unexported value specs of a spec list. -/
def uSpecsOf (specs : List Spec) : List ValueSpec :=
  specs.filterMap fun sp =>
    match sp with
    | .value v =>
      match v.names with
      | [] => none
      | n :: _ => if isExported n then none else some v
    | _ => none

theorem addSpec_foldl_const (specs : List Spec) (st : CatState) :
    specs.foldl (addSpec true) st =
      { st with
        ExportedConsts := st.ExportedConsts ++ eSpecsOf specs
        UnexportedConsts := st.UnexportedConsts ++ uSpecsOf specs } := by
  induction specs generalizing st with
  | nil => simp [eSpecsOf, uSpecsOf]
  | cons sp rest ih =>
    rw [List.foldl_cons, ih]
    rcases sp with v | t | p
    · rcases hn : v.names with _ | ⟨n, ns⟩
      · simp [addSpec, hn, eSpecsOf, uSpecsOf, List.filterMap_cons]
      · by_cases he : isExported n = true
        · simp [addSpec, hn, he, eSpecsOf, uSpecsOf, List.filterMap_cons]
        · simp [addSpec, hn, he, eSpecsOf, uSpecsOf, List.filterMap_cons]
    · simp [addSpec, eSpecsOf, uSpecsOf, List.filterMap_cons]
    · simp [addSpec, eSpecsOf, uSpecsOf, List.filterMap_cons]

theorem addSpec_foldl_var (specs : List Spec) (st : CatState) :
    specs.foldl (addSpec false) st =
      { st with
        ExportedVars := st.ExportedVars ++ eSpecsOf specs
        UnexportedVars := st.UnexportedVars ++ uSpecsOf specs } := by
  induction specs generalizing st with
  | nil => simp [eSpecsOf, uSpecsOf]
  | cons sp rest ih =>
    rw [List.foldl_cons, ih]
    rcases sp with v | t | p
    · rcases hn : v.names with _ | ⟨n, ns⟩
      · simp [addSpec, hn, eSpecsOf, uSpecsOf, List.filterMap_cons]
      · by_cases he : isExported n = true
        · simp [addSpec, hn, he, eSpecsOf, uSpecsOf, List.filterMap_cons]
        · simp [addSpec, hn, he, eSpecsOf, uSpecsOf, List.filterMap_cons]
    · simp [addSpec, eSpecsOf, uSpecsOf, List.filterMap_cons]
    · simp [addSpec, eSpecsOf, uSpecsOf, List.filterMap_cons]

/-- The type specs of a spec list. -/
def typeSpecsOf (specs : List Spec) : List TypeSpec :=
  specs.filterMap fun sp =>
    match sp with
    | .typeSpec t => some t
    | _ => none

/-- The arena update performed for one type spec. -/
def typeArenaUpdate (a : Arena) (t : TypeSpec) : Arena :=
  let g :=
    match arenaFind a t.name with
    | some g => g
    | none => { typeName := t.name }
  arenaSet a t.name { g with typeDecl := some { tok := .typeTok, specs := [.typeSpec t] } }

/-- Exported type names routed to the bucket given the enum set. -/
def eTypeNamesOf (enumTs : List String) (specs : List Spec) : List String :=
  specs.filterMap fun sp =>
    match sp with
    | .typeSpec t =>
      if enumTs.contains t.name then none
      else if isExported t.name then some t.name
      else none
    | _ => none

/-- Unexported type names routed to the bucket given the enum set. -/
def uTypeNamesOf (enumTs : List String) (specs : List Spec) : List String :=
  specs.filterMap fun sp =>
    match sp with
    | .typeSpec t =>
      if enumTs.contains t.name then none
      else if isExported t.name then none
      else some t.name
    | _ => none

theorem addTypeSpec_foldl (specs : List Spec) (st : CatState) :
    specs.foldl addTypeSpec st =
      { st with
        arena := (typeSpecsOf specs).foldl typeArenaUpdate st.arena
        ExportedTypeNames := st.ExportedTypeNames ++ eTypeNamesOf st.enumTypes specs
        UnexportedTypeNames := st.UnexportedTypeNames ++ uTypeNamesOf st.enumTypes specs } := by
  induction specs generalizing st with
  | nil => simp [typeSpecsOf, eTypeNamesOf, uTypeNamesOf]
  | cons sp rest ih =>
    rw [List.foldl_cons, ih]
    rcases sp with v | t | p
    · simp [addTypeSpec, typeSpecsOf, eTypeNamesOf, uTypeNamesOf, List.filterMap_cons]
    · by_cases hc : t.name ∈ st.enumTypes
      · have hc' : st.enumTypes.contains t.name = true := by simp [List.elem_eq_mem, hc]
        simp [addTypeSpec, hc, hc', typeSpecsOf, eTypeNamesOf, uTypeNamesOf,
          List.filterMap_cons, typeArenaUpdate]
      · have hc' : st.enumTypes.contains t.name = false := by simp [List.elem_eq_mem, hc]
        by_cases he : isExported t.name = true
        · simp [addTypeSpec, hc, hc', he, typeSpecsOf, eTypeNamesOf, uTypeNamesOf,
            List.filterMap_cons, typeArenaUpdate]
        · simp [addTypeSpec, hc, hc', he, typeSpecsOf, eTypeNamesOf, uTypeNamesOf,
            List.filterMap_cons, typeArenaUpdate]
    · simp [addTypeSpec, typeSpecsOf, eTypeNamesOf, uTypeNamesOf, List.filterMap_cons]

/-! ### Per-declaration effects on the simple fields -/

/-- Whether a const block is routed to the enum buckets
(`typeName != ""` after `IsIotaBlock`/`ExtractEnumType`). -/
def isEnumDecl (g : GenDecl) : Bool :=
  isIotaBlock g && extractEnumType g != ""

/-- Effect on `Imports`. -/
def declImports : Decl → List Decl
  | .gen g => if g.tok == .importTok then [.gen g] else []
  | .func _ => []

/-- Effect on `Main` (the last such declaration wins). -/
def declMain : Decl → Option FuncDecl
  | .func f => if f.name == "main" && f.recv.isNone then some f else none
  | .gen _ => none

/-- Effect on `Init`. -/
def declInits : Decl → List FuncDecl
  | .func f =>
    if f.name == "main" && f.recv.isNone then []
    else if f.name == "init" && f.recv.isNone then [f]
    else []
  | .gen _ => []

/-- Effect on `ExportedConsts`. -/
def declEConsts : Decl → List ValueSpec
  | .gen g =>
    if g.tok == .constTok && !isEnumDecl g then eSpecsOf g.specs else []
  | .func _ => []

/-- Effect on `UnexportedConsts`. -/
def declUConsts : Decl → List ValueSpec
  | .gen g =>
    if g.tok == .constTok && !isEnumDecl g then uSpecsOf g.specs else []
  | .func _ => []

/-- Effect on `ExportedVars`. -/
def declEVars : Decl → List ValueSpec
  | .gen g => if g.tok == .varTok then eSpecsOf g.specs else []
  | .func _ => []

/-- Effect on `UnexportedVars`. -/
def declUVars : Decl → List ValueSpec
  | .gen g => if g.tok == .varTok then uSpecsOf g.specs else []
  | .func _ => []

/-- Effect on the raw `ExportedEnums` pairs. -/
def declEEnums : Decl → List (String × GenDecl)
  | .gen g =>
    if g.tok == .constTok && isEnumDecl g && isExported (extractEnumType g) then
      [(extractEnumType g, g)]
    else []
  | .func _ => []

/-- Effect on the raw `UnexportedEnums` pairs. -/
def declUEnums : Decl → List (String × GenDecl)
  | .gen g =>
    if g.tok == .constTok && isEnumDecl g && !isExported (extractEnumType g) then
      [(extractEnumType g, g)]
    else []
  | .func _ => []

/-- Effect on the enum type-name set. -/
def declEnumTypes : Decl → List String
  | .gen g =>
    if g.tok == .constTok && isEnumDecl g then [extractEnumType g] else []
  | .func _ => []

/-- One step of the categorization fold, on every field that does not go
through the arena. -/
theorem categorizeStep_fields (st : CatState) (d : Decl) :
    (categorizeStep st d).Imports = st.Imports ++ declImports d ∧
    (categorizeStep st d).Main = (declMain d).or st.Main ∧
    (categorizeStep st d).Init = st.Init ++ declInits d ∧
    (categorizeStep st d).ExportedConsts = st.ExportedConsts ++ declEConsts d ∧
    (categorizeStep st d).UnexportedConsts = st.UnexportedConsts ++ declUConsts d ∧
    (categorizeStep st d).ExportedVars = st.ExportedVars ++ declEVars d ∧
    (categorizeStep st d).UnexportedVars = st.UnexportedVars ++ declUVars d ∧
    (categorizeStep st d).ExportedEnums = st.ExportedEnums ++ declEEnums d ∧
    (categorizeStep st d).UnexportedEnums = st.UnexportedEnums ++ declUEnums d ∧
    (categorizeStep st d).enumTypes = st.enumTypes ++ declEnumTypes d := by
  rcases d with ⟨tok, lparen, specs, decs⟩ | f
  · cases tok
    case importTok =>
      simp [categorizeStep, declImports, declMain, declInits, declEConsts, declUConsts,
        declEVars, declUVars, declEEnums, declUEnums, declEnumTypes, Option.or]
    case constTok =>
      by_cases hiota : isIotaBlock ⟨.constTok, lparen, specs, decs⟩ = true
      · by_cases hext : extractEnumType ⟨.constTok, lparen, specs, decs⟩ = ""
        · have henum : isEnumDecl ⟨.constTok, lparen, specs, decs⟩ = false := by
            simp [isEnumDecl, hext]
          simp [categorizeStep, hiota, hext, addSpec_foldl_const, declImports, declMain,
            declInits, declEConsts, declUConsts, declEVars, declUVars, declEEnums,
            declUEnums, declEnumTypes, henum, Option.or]
        · have henum : isEnumDecl ⟨.constTok, lparen, specs, decs⟩ = true := by
            simp [isEnumDecl, hiota, hext]
          by_cases hexp : isExported (extractEnumType ⟨.constTok, lparen, specs, decs⟩) = true
          · simp [categorizeStep, hiota, hext, declImports, declMain, declInits,
              declEConsts, declUConsts, declEVars, declUVars, declEEnums, declUEnums,
              declEnumTypes, henum, hexp, Option.or]
          · simp [categorizeStep, hiota, hext, declImports, declMain, declInits,
              declEConsts, declUConsts, declEVars, declUVars, declEEnums, declUEnums,
              declEnumTypes, henum, hexp, Option.or]
      · have henum : isEnumDecl ⟨.constTok, lparen, specs, decs⟩ = false := by
          simp [isEnumDecl, hiota]
        simp [categorizeStep, hiota, addSpec_foldl_const, declImports, declMain,
          declInits, declEConsts, declUConsts, declEVars, declUVars, declEEnums,
          declUEnums, declEnumTypes, henum, Option.or]
    case varTok =>
      simp [categorizeStep, addSpec_foldl_var, declImports, declMain, declInits,
        declEConsts, declUConsts, declEVars, declUVars, declEEnums, declUEnums,
        declEnumTypes, Option.or]
    case typeTok =>
      simp [categorizeStep, addTypeSpec_foldl, declImports, declMain, declInits,
        declEConsts, declUConsts, declEVars, declUVars, declEEnums, declUEnums,
        declEnumTypes, Option.or]
  · by_cases hmain : (f.name == "main" && f.recv.isNone) = true
    · simp [categorizeStep, hmain, declImports, declMain, declInits, declEConsts,
        declUConsts, declEVars, declUVars, declEEnums, declUEnums, declEnumTypes,
        Option.or]
    · by_cases hinit : (f.name == "init" && f.recv.isNone) = true
      · simp [categorizeStep, hmain, hinit, declImports, declMain, declInits,
          declEConsts, declUConsts, declEVars, declUVars, declEEnums, declUEnums,
          declEnumTypes, Option.or]
      · rcases hrecv : f.recv with _ | r
        · have hm' : (f.name == "main") = false := by
            cases h : f.name == "main"
            · rfl
            · exact absurd (by simp [h, hrecv]) hmain
          have hi' : (f.name == "init") = false := by
            cases h : f.name == "init"
            · rfl
            · exact absurd (by simp [h, hrecv]) hinit
          simp only [categorizeStep, hm', hi', hrecv, Bool.false_eq_true, if_false,
            Option.isNone_none, Bool.and_true]
          split <;>
          · first
            | (split <;>
                simp [declImports, declMain, declInits, declEConsts, declUConsts,
                  declEVars, declUVars, declEEnums, declUEnums, declEnumTypes, Option.or,
                  hm', hi', hrecv])
            | simp [declImports, declMain, declInits, declEConsts, declUConsts,
                declEVars, declUVars, declEEnums, declUEnums, declEnumTypes, Option.or,
                hm', hi', hrecv]
        · simp [categorizeStep, hmain, hinit, hrecv, declImports, declMain, declInits,
            declEConsts, declUConsts, declEVars, declUVars, declEEnums, declUEnums,
            declEnumTypes, Option.or]

/-- Generic fold lemma for an append-shaped projection. -/
theorem foldl_proj_append {σ α β : Type _} (step : σ → α → σ) (proj : σ → List β)
    (eff : α → List β) (h : ∀ s a, proj (step s a) = proj s ++ eff a) :
    ∀ (l : List α) (s : σ), proj (l.foldl step s) = proj s ++ (l.map eff).flatten := by
  intro l
  induction l with
  | nil => intro s; simp
  | cons a as ih =>
    intro s
    rw [List.foldl_cons, ih, h, List.map_cons, List.flatten_cons, List.append_assoc]

/-- The `main` declaration the fold retains (the last one wins). -/
def mainOf : List Decl → Option FuncDecl
  | [] => none
  | d :: rest => (mainOf rest).or (declMain d)

theorem foldl_Main (u : List Decl) (st : CatState) :
    (u.foldl categorizeStep st).Main = (mainOf u).or st.Main := by
  induction u generalizing st with
  | nil => rfl
  | cons d rest ih =>
    rw [List.foldl_cons, ih, (categorizeStep_fields st d).2.1, mainOf, Option.or_assoc]

theorem foldl_Imports (u : List Decl) (st : CatState) :
    (u.foldl categorizeStep st).Imports = st.Imports ++ (u.map declImports).flatten :=
  foldl_proj_append categorizeStep CatState.Imports declImports
    (fun s a => (categorizeStep_fields s a).1) u st

theorem foldl_Init (u : List Decl) (st : CatState) :
    (u.foldl categorizeStep st).Init = st.Init ++ (u.map declInits).flatten :=
  foldl_proj_append categorizeStep CatState.Init declInits
    (fun s a => (categorizeStep_fields s a).2.2.1) u st

theorem foldl_EConsts (u : List Decl) (st : CatState) :
    (u.foldl categorizeStep st).ExportedConsts =
      st.ExportedConsts ++ (u.map declEConsts).flatten :=
  foldl_proj_append categorizeStep CatState.ExportedConsts declEConsts
    (fun s a => (categorizeStep_fields s a).2.2.2.1) u st

theorem foldl_UConsts (u : List Decl) (st : CatState) :
    (u.foldl categorizeStep st).UnexportedConsts =
      st.UnexportedConsts ++ (u.map declUConsts).flatten :=
  foldl_proj_append categorizeStep CatState.UnexportedConsts declUConsts
    (fun s a => (categorizeStep_fields s a).2.2.2.2.1) u st

theorem foldl_EVars (u : List Decl) (st : CatState) :
    (u.foldl categorizeStep st).ExportedVars =
      st.ExportedVars ++ (u.map declEVars).flatten :=
  foldl_proj_append categorizeStep CatState.ExportedVars declEVars
    (fun s a => (categorizeStep_fields s a).2.2.2.2.2.1) u st

theorem foldl_UVars (u : List Decl) (st : CatState) :
    (u.foldl categorizeStep st).UnexportedVars =
      st.UnexportedVars ++ (u.map declUVars).flatten :=
  foldl_proj_append categorizeStep CatState.UnexportedVars declUVars
    (fun s a => (categorizeStep_fields s a).2.2.2.2.2.2.1) u st

theorem foldl_EEnums (u : List Decl) (st : CatState) :
    (u.foldl categorizeStep st).ExportedEnums =
      st.ExportedEnums ++ (u.map declEEnums).flatten :=
  foldl_proj_append categorizeStep CatState.ExportedEnums declEEnums
    (fun s a => (categorizeStep_fields s a).2.2.2.2.2.2.2.1) u st

theorem foldl_UEnums (u : List Decl) (st : CatState) :
    (u.foldl categorizeStep st).UnexportedEnums =
      st.UnexportedEnums ++ (u.map declUEnums).flatten :=
  foldl_proj_append categorizeStep CatState.UnexportedEnums declUEnums
    (fun s a => (categorizeStep_fields s a).2.2.2.2.2.2.2.2.1) u st

theorem foldl_enumTypes (u : List Decl) (st : CatState) :
    (u.foldl categorizeStep st).enumTypes =
      st.enumTypes ++ (u.map declEnumTypes).flatten :=
  foldl_proj_append categorizeStep CatState.enumTypes declEnumTypes
    (fun s a => (categorizeStep_fields s a).2.2.2.2.2.2.2.2.2) u st

/-! ### Characterizing `collectUncategorized` -/

theorem collectExportedConsts_eq (c : CategorizedDecls) (inc : List String) :
    collectExportedConsts c inc =
      { c with
        ExportedConsts :=
          if !inc.contains "exported_consts" && !c.ExportedConsts.isEmpty then []
          else c.ExportedConsts
        Uncategorized :=
          c.Uncategorized ++
            if !inc.contains "exported_consts" && !c.ExportedConsts.isEmpty then
              [.gen (mergeConstSpecs c.ExportedConsts "Exported constants.")]
            else [] } := by
  unfold collectExportedConsts
  split <;> rename_i h <;> simp [h]

theorem collectExportedVars_eq (c : CategorizedDecls) (inc : List String) :
    collectExportedVars c inc =
      { c with
        ExportedVars :=
          if !inc.contains "exported_vars" && !c.ExportedVars.isEmpty then []
          else c.ExportedVars
        Uncategorized :=
          c.Uncategorized ++
            if !inc.contains "exported_vars" && !c.ExportedVars.isEmpty then
              [.gen (mergeVarSpecs c.ExportedVars "Exported variables.")]
            else [] } := by
  unfold collectExportedVars
  split <;> rename_i h <;> simp [h]

theorem collectExportedFuncs_eq (c : CategorizedDecls) (inc : List String) :
    collectExportedFuncs c inc =
      { c with
        ExportedFuncs := if !inc.contains "exported_funcs" then [] else c.ExportedFuncs
        Uncategorized :=
          c.Uncategorized ++
            if !inc.contains "exported_funcs" then
              c.ExportedFuncs.map (fun f => .func (withEmptyLineFunc f))
            else [] } := by
  unfold collectExportedFuncs
  split <;> rename_i h <;> simp [h]

theorem collectUnexportedConsts_eq (c : CategorizedDecls) (inc : List String) :
    collectUnexportedConsts c inc =
      { c with
        UnexportedConsts :=
          if !inc.contains "unexported_consts" && !c.UnexportedConsts.isEmpty then []
          else c.UnexportedConsts
        Uncategorized :=
          c.Uncategorized ++
            if !inc.contains "unexported_consts" && !c.UnexportedConsts.isEmpty then
              [.gen (mergeConstSpecs c.UnexportedConsts "unexported constants.")]
            else [] } := by
  unfold collectUnexportedConsts
  split <;> rename_i h <;> simp [h]

theorem collectUnexportedVars_eq (c : CategorizedDecls) (inc : List String) :
    collectUnexportedVars c inc =
      { c with
        UnexportedVars :=
          if !inc.contains "unexported_vars" && !c.UnexportedVars.isEmpty then []
          else c.UnexportedVars
        Uncategorized :=
          c.Uncategorized ++
            if !inc.contains "unexported_vars" && !c.UnexportedVars.isEmpty then
              [.gen (mergeVarSpecs c.UnexportedVars "unexported variables.")]
            else [] } := by
  unfold collectUnexportedVars
  split <;> rename_i h <;> simp [h]

theorem collectUnexportedFuncs_eq (c : CategorizedDecls) (inc : List String) :
    collectUnexportedFuncs c inc =
      { c with
        UnexportedFuncs := if !inc.contains "unexported_funcs" then [] else c.UnexportedFuncs
        Uncategorized :=
          c.Uncategorized ++
            if !inc.contains "unexported_funcs" then
              c.UnexportedFuncs.map (fun f => .func (withEmptyLineFunc f))
            else [] } := by
  unfold collectUnexportedFuncs
  split <;> rename_i h <;> simp [h]

theorem collectExportedTypes_eq (c : CategorizedDecls) (inc : List String) :
    collectExportedTypes c inc =
      { c with
        ExportedTypes := if !inc.contains "exported_types" then [] else c.ExportedTypes
        Uncategorized :=
          c.Uncategorized ++
            if !inc.contains "exported_types" then
              (c.ExportedTypes.map flattenTypeGroup).flatten
            else [] } := by
  unfold collectExportedTypes
  split <;> rename_i h <;> simp [h]

theorem collectUnexportedTypes_eq (c : CategorizedDecls) (inc : List String) :
    collectUnexportedTypes c inc =
      { c with
        UnexportedTypes := if !inc.contains "unexported_types" then [] else c.UnexportedTypes
        Uncategorized :=
          c.Uncategorized ++
            if !inc.contains "unexported_types" then
              (c.UnexportedTypes.map flattenTypeGroup).flatten
            else [] } := by
  unfold collectUnexportedTypes
  split <;> rename_i h <;> simp [h]

theorem collectExportedEnums_eq (c : CategorizedDecls) (inc : List String) :
    collectExportedEnums c inc =
      { c with
        ExportedEnums := if !inc.contains "exported_enums" then [] else c.ExportedEnums
        Uncategorized :=
          c.Uncategorized ++
            if !inc.contains "exported_enums" then
              (c.ExportedEnums.map flattenEnumGroup).flatten
            else [] } := by
  unfold collectExportedEnums
  split <;> rename_i h <;> simp [h]

theorem collectUnexportedEnums_eq (c : CategorizedDecls) (inc : List String) :
    collectUnexportedEnums c inc =
      { c with
        UnexportedEnums := if !inc.contains "unexported_enums" then [] else c.UnexportedEnums
        Uncategorized :=
          c.Uncategorized ++
            if !inc.contains "unexported_enums" then
              (c.UnexportedEnums.map flattenEnumGroup).flatten
            else [] } := by
  unfold collectUnexportedEnums
  split <;> rename_i h <;> simp [h]

/-- Full characterization of `collectUncategorized`: each collectable bucket
is cleared when moved, and `Uncategorized` accumulates the moved chunks in
the source's fixed order. -/
theorem collectUncategorized_eq (cat : CategorizedDecls) (inc : List String) :
    collectUncategorized cat inc =
      { cat with
        ExportedConsts :=
          if !inc.contains "exported_consts" && !cat.ExportedConsts.isEmpty then []
          else cat.ExportedConsts
        ExportedVars :=
          if !inc.contains "exported_vars" && !cat.ExportedVars.isEmpty then []
          else cat.ExportedVars
        ExportedFuncs := if !inc.contains "exported_funcs" then [] else cat.ExportedFuncs
        UnexportedConsts :=
          if !inc.contains "unexported_consts" && !cat.UnexportedConsts.isEmpty then []
          else cat.UnexportedConsts
        UnexportedVars :=
          if !inc.contains "unexported_vars" && !cat.UnexportedVars.isEmpty then []
          else cat.UnexportedVars
        UnexportedFuncs := if !inc.contains "unexported_funcs" then [] else cat.UnexportedFuncs
        ExportedTypes := if !inc.contains "exported_types" then [] else cat.ExportedTypes
        UnexportedTypes := if !inc.contains "unexported_types" then [] else cat.UnexportedTypes
        ExportedEnums := if !inc.contains "exported_enums" then [] else cat.ExportedEnums
        UnexportedEnums := if !inc.contains "unexported_enums" then [] else cat.UnexportedEnums
        Uncategorized :=
          cat.Uncategorized ++
            (if !inc.contains "exported_consts" && !cat.ExportedConsts.isEmpty then
              [.gen (mergeConstSpecs cat.ExportedConsts "Exported constants.")]
            else []) ++
            (if !inc.contains "exported_vars" && !cat.ExportedVars.isEmpty then
              [.gen (mergeVarSpecs cat.ExportedVars "Exported variables.")]
            else []) ++
            (if !inc.contains "exported_funcs" then
              cat.ExportedFuncs.map (fun f => .func (withEmptyLineFunc f))
            else []) ++
            (if !inc.contains "unexported_consts" && !cat.UnexportedConsts.isEmpty then
              [.gen (mergeConstSpecs cat.UnexportedConsts "unexported constants.")]
            else []) ++
            (if !inc.contains "unexported_vars" && !cat.UnexportedVars.isEmpty then
              [.gen (mergeVarSpecs cat.UnexportedVars "unexported variables.")]
            else []) ++
            (if !inc.contains "unexported_funcs" then
              cat.UnexportedFuncs.map (fun f => .func (withEmptyLineFunc f))
            else []) ++
            (if !inc.contains "exported_types" then
              (cat.ExportedTypes.map flattenTypeGroup).flatten
            else []) ++
            (if !inc.contains "unexported_types" then
              (cat.UnexportedTypes.map flattenTypeGroup).flatten
            else []) ++
            (if !inc.contains "exported_enums" then
              (cat.ExportedEnums.map flattenEnumGroup).flatten
            else []) ++
            (if !inc.contains "unexported_enums" then
              (cat.UnexportedEnums.map flattenEnumGroup).flatten
            else []) } := by
  unfold collectUncategorized
  rw [collectExportedConsts_eq, collectExportedVars_eq, collectExportedFuncs_eq,
    collectUnexportedConsts_eq, collectUnexportedVars_eq, collectUnexportedFuncs_eq,
    collectExportedTypes_eq, collectUnexportedTypes_eq, collectExportedEnums_eq,
    collectUnexportedEnums_eq]

/-! ### Claim C8: init functions keep their original relative order -/

/-- The no-receiver functions named `init` of a unit, in original order. -/
def initsOf (u : List Decl) : List FuncDecl :=
  u.filterMap fun d =>
    match d with
    | .func f => if f.name == "init" && f.recv.isNone then some f else none
    | .gen _ => none

theorem initsOf_cons (d : Decl) (rest : List Decl) :
    initsOf (d :: rest) = declInits d ++ initsOf rest := by
  rcases d with g | f
  · simp [initsOf, declInits, List.filterMap_cons]
  · by_cases hinit : f.name = "init" ∧ f.recv = none
    · have hmain : ¬(f.name = "main" ∧ f.recv = none) := by
        rintro ⟨hm, -⟩
        rw [hinit.1] at hm
        exact absurd hm (by decide)
      simp [initsOf, declInits, List.filterMap_cons, hinit.1, hinit.2, hmain]
    · by_cases hmain : f.name = "main" ∧ f.recv = none
      · simp [initsOf, declInits, List.filterMap_cons, hinit, hmain.1, hmain.2]
      · simp [initsOf, declInits, List.filterMap_cons, hinit, hmain]

theorem declInits_flatten (u : List Decl) : (u.map declInits).flatten = initsOf u := by
  induction u with
  | nil => rfl
  | cons d rest ih =>
    rw [List.map_cons, List.flatten_cons, ih, initsOf_cons]

/-- C8: init functions are emitted in their original relative order in every
configuration: the categorizer collects them in unit order, the sorter and
the uncategorized-collector never touch the `Init` list, the emitter
registry maps `"init"` to `emitInit`, and `emitInit` preserves the list as
collected (adding only the blank-line spacing directive). -/
theorem init_order_preserved (u : List Decl) (cat : CategorizedDecls) (cfg : Config)
    (inc : List String) :
    (categorizeDeclarations u).Init = initsOf u ∧
    (sortCategorized cat).Init = cat.Init ∧
    (collectUncategorized cat inc).Init = cat.Init ∧
    getEmitter "init" = some emitInit ∧
    emitInit cat cfg = cat.Init.map (fun fn => .func (withEmptyLineFunc fn)) := by
  refine ⟨?_, rfl, ?_, rfl, rfl⟩
  · show (u.foldl categorizeStep { arena := collectTypeNames u }).Init = _
    rw [foldl_Init, declInits_flatten]
    rfl
  · rw [collectUncategorized_eq]

/-! ### Characterizing pass 3 -/

/-- The full enum group built for one raw pair. -/
def pairOne (arena : Arena) (p : String × GenDecl) : EnumGroup :=
  match arenaFind arena p.1 with
  | some g =>
    { typeName := p.1
      typeDecl := g.typeDecl
      constDecl := p.2
      exportedMethods := g.exportedMethods
      unexportedMethods := g.unexportedMethods }
  | none => { typeName := p.1, constDecl := p.2 }

theorem pairEnums_foldl (arena : Arena) (raw : List (String × GenDecl)) :
    ∀ (acc : List EnumGroup) (names : List String),
      raw.foldl
        (fun acc p =>
          match arenaFind arena p.1 with
          | some g =>
            (acc.1 ++
                [{ typeName := p.1
                   typeDecl := g.typeDecl
                   constDecl := p.2
                   exportedMethods := g.exportedMethods
                   unexportedMethods := g.unexportedMethods }],
              acc.2.erase p.1)
          | none => (acc.1 ++ [{ typeName := p.1, constDecl := p.2 }], acc.2))
        (acc, names) =
      (acc ++ raw.map (pairOne arena),
        raw.foldl
          (fun ns p => if (arenaFind arena p.1).isSome then ns.erase p.1 else ns) names) := by
  induction raw with
  | nil => intro acc names; simp
  | cons p rest ih =>
    intro acc names
    rw [List.foldl_cons, List.foldl_cons]
    cases hf : arenaFind arena p.1 with
    | some g =>
      rw [ih]
      simp [pairOne, hf, List.append_assoc]
    | none =>
      rw [ih]
      simp [pairOne, hf, List.append_assoc]

theorem pairEnums_eq (arena : Arena) (raw : List (String × GenDecl)) (names : List String) :
    pairEnums arena raw names =
      (raw.map (pairOne arena),
        raw.foldl
          (fun ns p => if (arenaFind arena p.1).isSome then ns.erase p.1 else ns) names) := by
  unfold pairEnums
  rw [pairEnums_foldl]
  simp

theorem pairOne_constDecl (arena : Arena) (p : String × GenDecl) :
    (pairOne arena p).constDecl = p.2 := by
  unfold pairOne
  cases arenaFind arena p.1 <;> rfl

theorem pairOne_typeName (arena : Arena) (p : String × GenDecl) :
    (pairOne arena p).typeName = p.1 := by
  unfold pairOne
  cases arenaFind arena p.1 <;> rfl

/-! ### Claim C4: enum classification boundary -/

theorem declEEnums_mem (d : Decl) (p : String × GenDecl) :
    p ∈ declEEnums d ↔
      (d = .gen p.2 ∧ p.2.tok = .constTok ∧ isEnumDecl p.2 = true ∧
        isExported (extractEnumType p.2) = true ∧ p.1 = extractEnumType p.2) := by
  obtain ⟨a, b⟩ := p
  rcases d with g | f
  · by_cases h : (g.tok == GTok.constTok && isEnumDecl g && isExported (extractEnumType g))
        = true
    · have he : declEEnums (Decl.gen g) = [(extractEnumType g, g)] := by
        simp only [declEEnums, h, if_true]
      rcases Bool.and_eq_true .. |>.mp h with ⟨h1, hexp⟩
      rcases Bool.and_eq_true .. |>.mp h1 with ⟨htok, henum⟩
      rw [he]
      constructor
      · intro hp
        have hpe := List.mem_singleton.mp hp
        rw [Prod.ext_iff] at hpe
        obtain ⟨ha, hb⟩ := hpe
        simp only at ha hb
        subst hb
        subst ha
        exact ⟨rfl, eq_of_beq htok, henum, hexp, rfl⟩
      · rintro ⟨hd, -, -, -, hfst⟩
        injection hd with hgb
        subst hgb
        simp only at hfst
        simp [hfst]
    · have he : declEEnums (Decl.gen g) = [] := by
        simp only [declEEnums]
        exact if_neg h
      rw [he]
      simp only [List.not_mem_nil, false_iff]
      rintro ⟨hd, htok, henum, hexp, -⟩
      injection hd with hgb
      subst hgb
      exact h (by simp [htok, henum, hexp])
  · simp only [declEEnums, List.not_mem_nil, false_iff]
    rintro ⟨hd, -⟩
    exact Decl.noConfusion hd

theorem declUEnums_mem (d : Decl) (p : String × GenDecl) :
    p ∈ declUEnums d ↔
      (d = .gen p.2 ∧ p.2.tok = .constTok ∧ isEnumDecl p.2 = true ∧
        isExported (extractEnumType p.2) = false ∧ p.1 = extractEnumType p.2) := by
  obtain ⟨a, b⟩ := p
  rcases d with g | f
  · by_cases h : (g.tok == GTok.constTok && isEnumDecl g && !isExported (extractEnumType g))
        = true
    · have he : declUEnums (Decl.gen g) = [(extractEnumType g, g)] := by
        simp only [declUEnums, h, if_true]
      rcases Bool.and_eq_true .. |>.mp h with ⟨h1, hexp⟩
      rcases Bool.and_eq_true .. |>.mp h1 with ⟨htok, henum⟩
      rw [he]
      constructor
      · intro hp
        have hpe := List.mem_singleton.mp hp
        rw [Prod.ext_iff] at hpe
        obtain ⟨ha, hb⟩ := hpe
        simp only at ha hb
        subst hb
        subst ha
        exact ⟨rfl, eq_of_beq htok, henum, by simpa using hexp, rfl⟩
      · rintro ⟨hd, -, -, -, hfst⟩
        injection hd with hgb
        subst hgb
        simp only at hfst
        simp [hfst]
    · have he : declUEnums (Decl.gen g) = [] := by
        simp only [declUEnums]
        exact if_neg h
      rw [he]
      simp only [List.not_mem_nil, false_iff]
      rintro ⟨hd, htok, henum, hexp, -⟩
      injection hd with hgb
      subst hgb
      exact h (by simp [htok, henum, hexp])
  · simp only [declUEnums, List.not_mem_nil, false_iff]
    rintro ⟨hd, -⟩
    exact Decl.noConfusion hd

/-- Shorthand for the state after pass 2. -/
def pass2State (u : List Decl) : CatState :=
  u.foldl categorizeStep { arena := collectTypeNames u }

theorem categorize_ExportedEnums (u : List Decl) :
    (categorizeDeclarations u).ExportedEnums =
      (sortOn EnumGroup.typeName
        (((u.map declEEnums).flatten).map (pairOne (pass2State u).arena))).map
        sortEnumGroup := by
  have h1 : (categorizeDeclarations u).ExportedEnums =
      (sortOn EnumGroup.typeName
        (pairEnums (pass2State u).arena (pass2State u).ExportedEnums
          (pass2State u).ExportedTypeNames).1).map sortEnumGroup := rfl
  rw [h1, pairEnums_eq]
  have h2 : (pass2State u).ExportedEnums = (u.map declEEnums).flatten := by
    rw [pass2State, foldl_EEnums]
    rfl
  rw [h2]

theorem categorize_UnexportedEnums (u : List Decl) :
    (categorizeDeclarations u).UnexportedEnums =
      (sortOn EnumGroup.typeName
        (((u.map declUEnums).flatten).map (pairOne (pass2State u).arena))).map
        sortEnumGroup := by
  have h1 : (categorizeDeclarations u).UnexportedEnums =
      (sortOn EnumGroup.typeName
        (pairEnums (pass2State u).arena (pass2State u).UnexportedEnums
          (pass2State u).UnexportedTypeNames).1).map sortEnumGroup := rfl
  rw [h1, pairEnums_eq]
  have h2 : (pass2State u).UnexportedEnums = (u.map declUEnums).flatten := by
    rw [pass2State, foldl_UEnums]
    rfl
  rw [h2]

theorem categorize_ExportedConsts (u : List Decl) :
    (categorizeDeclarations u).ExportedConsts =
      sortOn specName ((u.map declEConsts).flatten) := by
  have h1 : (categorizeDeclarations u).ExportedConsts =
      sortOn specName (pass2State u).ExportedConsts := rfl
  rw [h1, pass2State, foldl_EConsts]
  rfl

theorem categorize_UnexportedConsts (u : List Decl) :
    (categorizeDeclarations u).UnexportedConsts =
      sortOn specName ((u.map declUConsts).flatten) := by
  have h1 : (categorizeDeclarations u).UnexportedConsts =
      sortOn specName (pass2State u).UnexportedConsts := rfl
  rw [h1, pass2State, foldl_UConsts]
  rfl

theorem categorize_ExportedVars (u : List Decl) :
    (categorizeDeclarations u).ExportedVars =
      sortOn specName ((u.map declEVars).flatten) := by
  have h1 : (categorizeDeclarations u).ExportedVars =
      sortOn specName (pass2State u).ExportedVars := rfl
  rw [h1, pass2State, foldl_EVars]
  rfl

theorem categorize_UnexportedVars (u : List Decl) :
    (categorizeDeclarations u).UnexportedVars =
      sortOn specName ((u.map declUVars).flatten) := by
  have h1 : (categorizeDeclarations u).UnexportedVars =
      sortOn specName (pass2State u).UnexportedVars := rfl
  rw [h1, pass2State, foldl_UVars]
  rfl

theorem sortEnumGroup_constDecl (eg : EnumGroup) :
    (sortEnumGroup eg).constDecl = eg.constDecl := rfl

/-- A const decl becomes the value block of an enum group exactly when it is
an iota block whose extracted type name is nonempty. -/
theorem enums_membership (u : List Decl) (g : GenDecl) :
    (∃ eg, (eg ∈ (categorizeDeclarations u).ExportedEnums ∨
        eg ∈ (categorizeDeclarations u).UnexportedEnums) ∧ eg.constDecl = g) ↔
      (Decl.gen g ∈ u ∧ g.tok = .constTok ∧ isEnumDecl g = true) := by
  rw [categorize_ExportedEnums, categorize_UnexportedEnums]
  constructor
  · rintro ⟨eg, hmem | hmem, hcd⟩
    · obtain ⟨eg', hm1, rfl⟩ := List.mem_map.mp hmem
      have hm2 := (sortOn_perm _ _).mem_iff.mp hm1
      obtain ⟨p, hp, rfl⟩ := List.mem_map.mp hm2
      rw [sortEnumGroup_constDecl, pairOne_constDecl] at hcd
      obtain ⟨l, hl, hpl⟩ := List.mem_flatten.mp hp
      obtain ⟨d, hd, rfl⟩ := List.mem_map.mp hl
      have hc := (declEEnums_mem d p).mp hpl
      rw [hcd] at hc
      exact ⟨hc.1 ▸ hd, hc.2.1, hc.2.2.1⟩
    · obtain ⟨eg', hm1, rfl⟩ := List.mem_map.mp hmem
      have hm2 := (sortOn_perm _ _).mem_iff.mp hm1
      obtain ⟨p, hp, rfl⟩ := List.mem_map.mp hm2
      rw [sortEnumGroup_constDecl, pairOne_constDecl] at hcd
      obtain ⟨l, hl, hpl⟩ := List.mem_flatten.mp hp
      obtain ⟨d, hd, rfl⟩ := List.mem_map.mp hl
      have hc := (declUEnums_mem d p).mp hpl
      rw [hcd] at hc
      exact ⟨hc.1 ▸ hd, hc.2.1, hc.2.2.1⟩
  · rintro ⟨hu, htok, henum⟩
    cases hexp : isExported (extractEnumType g) with
    | true =>
      refine ⟨sortEnumGroup (pairOne (pass2State u).arena (extractEnumType g, g)),
        Or.inl ?_, by rw [sortEnumGroup_constDecl, pairOne_constDecl]⟩
      refine List.mem_map.mpr ⟨pairOne (pass2State u).arena (extractEnumType g, g), ?_, rfl⟩
      refine (sortOn_perm _ _).mem_iff.mpr ?_
      refine List.mem_map.mpr ⟨(extractEnumType g, g), ?_, rfl⟩
      refine List.mem_flatten.mpr
        ⟨declEEnums (.gen g), List.mem_map.mpr ⟨.gen g, hu, rfl⟩, ?_⟩
      exact (declEEnums_mem (.gen g) (extractEnumType g, g)).mpr
        ⟨rfl, htok, henum, hexp, rfl⟩
    | false =>
      refine ⟨sortEnumGroup (pairOne (pass2State u).arena (extractEnumType g, g)),
        Or.inr ?_, by rw [sortEnumGroup_constDecl, pairOne_constDecl]⟩
      refine List.mem_map.mpr ⟨pairOne (pass2State u).arena (extractEnumType g, g), ?_, rfl⟩
      refine (sortOn_perm _ _).mem_iff.mpr ?_
      refine List.mem_map.mpr ⟨(extractEnumType g, g), ?_, rfl⟩
      refine List.mem_flatten.mpr
        ⟨declUEnums (.gen g), List.mem_map.mpr ⟨.gen g, hu, rfl⟩, ?_⟩
      exact (declUEnums_mem (.gen g) (extractEnumType g, g)).mpr
        ⟨rfl, htok, henum, hexp, rfl⟩

theorem isEnumDecl_iff (g : GenDecl) :
    isEnumDecl g = true ↔ (isIotaBlock g = true ∧ extractEnumType g ≠ "") := by
  simp [isEnumDecl]

/-- C4 (amended): a const block of a unit becomes an enumeration block iff
(a) some value in the block derives from `iota` AND (b) the FIRST spec of
the block carries an explicit named-type annotation (nonempty extracted
type name); and an iota block whose first spec carries no annotation has
its specs routed to the ordinary constant buckets. -/
theorem enum_boundary (u : List Decl) (g : GenDecl) :
    ((∃ eg, (eg ∈ (categorizeDeclarations u).ExportedEnums ∨
        eg ∈ (categorizeDeclarations u).UnexportedEnums) ∧ eg.constDecl = g) ↔
      (Decl.gen g ∈ u ∧ g.tok = .constTok ∧ isIotaBlock g = true ∧
        extractEnumType g ≠ "")) ∧
    (Decl.gen g ∈ u → g.tok = .constTok → isIotaBlock g = true → extractEnumType g = "" →
      (∀ v ∈ eSpecsOf g.specs, v ∈ (categorizeDeclarations u).ExportedConsts) ∧
      (∀ v ∈ uSpecsOf g.specs, v ∈ (categorizeDeclarations u).UnexportedConsts)) := by
  constructor
  · rw [enums_membership]
    constructor
    · rintro ⟨hu, htok, henum⟩
      obtain ⟨hiota, hext⟩ := (isEnumDecl_iff g).mp henum
      exact ⟨hu, htok, hiota, hext⟩
    · rintro ⟨hu, htok, hiota, hext⟩
      exact ⟨hu, htok, (isEnumDecl_iff g).mpr ⟨hiota, hext⟩⟩
  · intro hu htok hiota hext
    have henum : isEnumDecl g = false := by
      simp [isEnumDecl, hext]
    have htok' : (g.tok == GTok.constTok) = true := by simp [htok]
    constructor
    · intro v hv
      rw [categorize_ExportedConsts]
      refine (sortOn_perm _ _).mem_iff.mpr ?_
      refine List.mem_flatten.mpr ⟨declEConsts (.gen g),
        List.mem_map.mpr ⟨.gen g, hu, rfl⟩, ?_⟩
      simpa [declEConsts, htok', henum] using hv
    · intro v hv
      rw [categorize_UnexportedConsts]
      refine (sortOn_perm _ _).mem_iff.mpr ?_
      refine List.mem_flatten.mpr ⟨declUConsts (.gen g),
        List.mem_map.mpr ⟨.gen g, hu, rfl⟩, ?_⟩
      simpa [declUConsts, htok', henum] using hv

/-- A const block with `iota` in its first spec's value and a named-type
annotation only on its SECOND spec: it satisfies the claim's conditions
(a) and (b)-as-stated, yet the code classifies it as ordinary constants. -/
def c4Block : GenDecl :=
  { tok := .constTok
    specs :=
      [.value { names := ["a"], values := [.ident "iota"] },
       .value { names := ["B"], type := some (.ident "Status"), values := [.lit "1"] }] }

/-- Counterexample to C4 as stated: `c4Block` uses `iota` and carries a
named-type annotation on at least one spec, yet no enum group is produced;
its specs land in the ordinary constant buckets. -/
theorem enum_boundary_counterexample :
    isIotaBlock c4Block = true ∧
    (c4Block.specs.any fun sp =>
      match sp with
      | .value v => v.type.isSome
      | _ => false) = true ∧
    (categorizeDeclarations [.gen c4Block]).ExportedEnums = [] ∧
    (categorizeDeclarations [.gen c4Block]).UnexportedEnums = [] ∧
    (categorizeDeclarations [.gen c4Block]).ExportedConsts =
      [{ names := ["B"], type := some (.ident "Status"), values := [.lit "1"] }] ∧
    (categorizeDeclarations [.gen c4Block]).UnexportedConsts =
      [{ names := ["a"], values := [.ident "iota"] }] := by
  decide

/-- The enum unit used as the concrete witness for the amended claim. -/
def c4WitnessBlock : GenDecl :=
  { tok := .constTok
    specs :=
      [.value { names := ["StatusPending"], type := some (.ident "Status")
                values := [.ident "iota"] },
       .value { names := ["StatusActive"] }] }

/-- Witness for the amended enum-boundary claim at a concrete unit. -/
theorem enum_boundary_witness :
    ∃ eg, (eg ∈ (categorizeDeclarations [.gen c4WitnessBlock]).ExportedEnums ∨
        eg ∈ (categorizeDeclarations [.gen c4WitnessBlock]).UnexportedEnums) ∧
      eg.constDecl = c4WitnessBlock :=
  (enum_boundary [.gen c4WitnessBlock] c4WitnessBlock).1.mpr
    ⟨by decide, by decide, by decide, by decide⟩

/-! ### Claim C7: a declaration can occupy two locations -/

/-- An exported iota block typed `Status` with no `type Status` declaration
in the unit. -/
def c7ConstBlock : GenDecl :=
  { tok := .constTok
    specs := [.value { names := ["A"], type := some (.ident "Status")
                       values := [.ident "iota"] }] }

/-- A method on `Status`, the type being defined in another unit. -/
def c7Method : FuncDecl := { name := "Foo", recv := some (.ident "Status") }

/-- The failing unit for the one-location invariant. -/
def c7Unit : List Decl := [.gen c7ConstBlock, .func c7Method]

/-- C7 failing input evaluated: the method `Foo` is transferred to the
`Status` enum group by pass 3 AND the method-only `Status` type group is
added by pass 4, so the same declaration occupies two locations and is
emitted twice by reassembly (the input holds it once). -/
theorem method_in_two_locations :
    ((categorizeDeclarations c7Unit).ExportedEnums.map EnumGroup.exportedMethods)
      = [[c7Method]] ∧
    ((categorizeDeclarations c7Unit).ExportedTypes.map TypeGroup.exportedMethods)
      = [[c7Method]] ∧
    ((fileWithConfig c7Unit defaultConfig).filter fun d =>
      match d with
      | .func f => f.name == "Foo"
      | _ => false).length = 2 ∧
    (c7Unit.filter fun d =>
      match d with
      | .func f => f.name == "Foo"
      | _ => false).length = 1 := by
  decide

/-! ### Claim C2: strict mode rejection -/

/-- The 13 section names `FindExcludedSections` checks, in the source's
order; `"imports"` is absent. -/
def checkedSections : List String :=
  ["main", "init", "exported_consts", "exported_vars", "exported_funcs",
   "exported_types", "exported_enums", "unexported_consts", "unexported_vars",
   "unexported_funcs", "unexported_types", "unexported_enums", "uncategorized"]

/-- Whether the bucket selected by a section name holds content. -/
def bucketNonempty (cat : CategorizedDecls) (s : String) : Bool :=
  if s == "main" then cat.Main.isSome
  else if s == "init" then !cat.Init.isEmpty
  else if s == "exported_consts" then !cat.ExportedConsts.isEmpty
  else if s == "exported_vars" then !cat.ExportedVars.isEmpty
  else if s == "exported_funcs" then !cat.ExportedFuncs.isEmpty
  else if s == "exported_types" then !cat.ExportedTypes.isEmpty
  else if s == "exported_enums" then !cat.ExportedEnums.isEmpty
  else if s == "unexported_consts" then !cat.UnexportedConsts.isEmpty
  else if s == "unexported_vars" then !cat.UnexportedVars.isEmpty
  else if s == "unexported_funcs" then !cat.UnexportedFuncs.isEmpty
  else if s == "unexported_types" then !cat.UnexportedTypes.isEmpty
  else if s == "unexported_enums" then !cat.UnexportedEnums.isEmpty
  else if s == "uncategorized" then !cat.Uncategorized.isEmpty
  else false

theorem appendIf_eq (l : List String) (b : Bool) (s : String) :
    appendIf l b s = l ++ (if b then [s] else []) := by
  unfold appendIf
  split <;> simp

theorem filter_cons_chunk (p : α → Bool) (a : α) (l : List α) :
    List.filter p (a :: l) = (if p a = true then [a] else []) ++ List.filter p l := by
  by_cases h : p a = true <;> simp [List.filter_cons, h]

/-- `FindExcludedSections` is the filter of the 13 checked names by
"not included and nonempty". -/
theorem findExcludedSections_eq_filter (cat : CategorizedDecls) (inc : List String) :
    findExcludedSections cat inc =
      checkedSections.filter (fun s => !inc.contains s && bucketNonempty cat s) := by
  unfold findExcludedSections checkedSections
  simp only [appendIf_eq, List.nil_append, List.append_assoc]
  simp only [filter_cons_chunk, List.filter_nil, List.append_nil, List.append_assoc]
  simp [bucketNonempty]

theorem findExcludedSections_mem (cat : CategorizedDecls) (inc : List String)
    (x : String) :
    x ∈ findExcludedSections cat inc ↔
      (x ∈ checkedSections ∧ x ∉ inc ∧ bucketNonempty cat x = true) := by
  rw [findExcludedSections_eq_filter, List.mem_filter]
  constructor
  · rintro ⟨h1, h2⟩
    rcases Bool.and_eq_true .. |>.mp h2 with ⟨hni, hne⟩
    refine ⟨h1, ?_, hne⟩
    simp only [Bool.not_eq_true', List.elem_eq_mem, decide_eq_false_iff_not] at hni
    exact hni
  · rintro ⟨h1, h2, h3⟩
    refine ⟨h1, ?_⟩
    simp [List.elem_eq_mem, h2, h3]

/-- C2 (amended): with `Mode = strict`, the (spec-modelled) checked driver
fails before emitting any output exactly when some bucket OTHER THAN
`Imports` holds content while its section name is absent from the order,
and the error names exactly the offending sections. -/
theorem strict_mode_rejects (u : List Decl) (cfg : Config)
    (hmode : cfg.Behavior.Mode = "strict") :
    ((∃ x ∈ checkedSections, x ∉ cfg.Sections.Order ∧
        bucketNonempty (categorizeDeclarations u) x = true) ↔
      (∃ l, fileWithConfigChecked u cfg = .error l)) ∧
    (∀ l, fileWithConfigChecked u cfg = .error l →
      ∀ x, x ∈ l ↔ (x ∈ checkedSections ∧ x ∉ cfg.Sections.Order ∧
        bucketNonempty (categorizeDeclarations u) x = true)) := by
  have hm : (cfg.Behavior.Mode == "strict") = true := by simp [hmode]
  unfold fileWithConfigChecked
  rw [hm]
  simp only [Bool.true_and]
  by_cases hex : findExcludedSections (categorizeDeclarations u) cfg.Sections.Order = []
  · rw [hex]
    simp only [List.isEmpty_nil, Bool.not_true, Bool.false_eq_true, if_false]
    refine ⟨⟨?_, ?_⟩, ?_⟩
    · rintro ⟨x, h1, h2, h3⟩
      have hx := (findExcludedSections_mem (categorizeDeclarations u)
        cfg.Sections.Order x).mpr ⟨h1, h2, h3⟩
      rw [hex] at hx
      cases hx
    · rintro ⟨l, hl⟩
      cases hl
    · rintro l hl
      cases hl
  · have hne : (findExcludedSections (categorizeDeclarations u)
        cfg.Sections.Order).isEmpty = false := by
      cases hE : findExcludedSections (categorizeDeclarations u) cfg.Sections.Order
      · exact absurd hE hex
      · rfl
    rw [hne]
    simp only [Bool.not_false, if_true]
    refine ⟨⟨?_, ?_⟩, ?_⟩
    · intro h
      exact ⟨_, rfl⟩
    · rintro ⟨l, hl⟩
      cases hE : findExcludedSections (categorizeDeclarations u) cfg.Sections.Order with
      | nil => exact absurd hE hex
      | cons y ys =>
        have hy : y ∈ findExcludedSections (categorizeDeclarations u) cfg.Sections.Order := by
          rw [hE]
          simp
        exact ⟨y, (findExcludedSections_mem (categorizeDeclarations u)
          cfg.Sections.Order y).mp hy⟩
    · rintro l hl
      injection hl with hle
      subst hle
      intro x
      exact findExcludedSections_mem (categorizeDeclarations u) cfg.Sections.Order x

/-- The unit for the C2 counterexample: a single import declaration. -/
def c2Import : Decl := .gen { tok := .importTok, specs := [.importSpec "fmt"] }

/-- The strict config omitting `"imports"` from the order. -/
def c2Cfg : Config :=
  { Sections := { Order := ["main"] }
    Types := { TypeLayout := [], EnumLayout := [] }
    Behavior := { Mode := "strict" } }

/-- Counterexample to C2 as stated: the `Imports` bucket holds content and
`"imports"` is not in the order, yet the strict call succeeds (and even
silently drops the import), because `FindExcludedSections` has no check for
the imports bucket. -/
theorem strict_mode_counterexample :
    (categorizeDeclarations [c2Import]).Imports ≠ [] ∧
    "imports" ∉ c2Cfg.Sections.Order ∧
    c2Cfg.Behavior.Mode = "strict" ∧
    fileWithConfigChecked [c2Import] c2Cfg = .ok [] :=
  ⟨by decide, by decide, rfl, rfl⟩

/-- The unit for the C2 witness: one unexported function. -/
def c2WitnessUnit : List Decl := [.func { name := "helper" }]

/-- The strict config omitting `"unexported_funcs"`. -/
def c2WitnessCfg : Config :=
  { Sections := { Order := ["imports", "main"] }
    Types := { TypeLayout := [], EnumLayout := [] }
    Behavior := { Mode := "strict" } }

/-- Witness: with an unexported function and an order that omits
`unexported_funcs`, the strict call fails and the error names it. -/
theorem strict_mode_rejects_witness :
    (∃ l, fileWithConfigChecked c2WitnessUnit c2WitnessCfg = .error l) ∧
      fileWithConfigChecked c2WitnessUnit c2WitnessCfg = .error ["unexported_funcs"] :=
  ⟨(strict_mode_rejects c2WitnessUnit c2WitnessCfg rfl).1.mp
      ⟨"unexported_funcs", by decide, by decide, by decide⟩,
    rfl⟩

/-! ### The arena is autonomous

The arena component of the pass-2 state evolves as a function of itself
and the declaration only; `arenaStep` extracts that function, so that
group contents can be reasoned about independently of the buckets. -/

/-- The arena update of one categorization step. -/
def arenaStep (a : Arena) (d : Decl) : Arena :=
  match d with
  | .gen g =>
    if g.tok == .typeTok then (typeSpecsOf g.specs).foldl typeArenaUpdate a else a
  | .func f =>
    if f.name == "main" && f.recv.isNone then a
    else if f.name == "init" && f.recv.isNone then a
    else
      match f.recv with
      | some _ =>
        let typeName := extractReceiverTypeName f.recv
        let g :=
          match arenaFind a typeName with
          | some g => g
          | none => { typeName := typeName }
        let g :=
          if isExported f.name then { g with exportedMethods := g.exportedMethods ++ [f] }
          else { g with unexportedMethods := g.unexportedMethods ++ [f] }
        arenaSet a typeName g
      | none =>
        let isCtorCandidate := strStartsWith "New" f.name || strStartsWith "Must" f.name
        let returnType := getFirstReturnTypeName f
        let matchedGroup :=
          if isCtorCandidate && returnType != "" then arenaFind a returnType else none
        match matchedGroup with
        | some g =>
          arenaSet a returnType { g with constructors := g.constructors ++ [f] }
        | none => a

theorem step_arena (st : CatState) (d : Decl) :
    (categorizeStep st d).arena = arenaStep st.arena d := by
  rcases d with ⟨tok, lparen, specs, decs⟩ | f
  · cases tok
    case importTok => rfl
    case constTok =>
      have h2 : arenaStep st.arena (Decl.gen ⟨.constTok, lparen, specs, decs⟩) =
          st.arena := rfl
      rw [h2]
      simp only [categorizeStep]
      repeat' split
      all_goals first
      | rfl
      | rw [addSpec_foldl_const]
    case varTok =>
      have h2 : arenaStep st.arena (Decl.gen ⟨.varTok, lparen, specs, decs⟩) =
          st.arena := rfl
      rw [h2]
      simp only [categorizeStep]
      rw [addSpec_foldl_var]
    case typeTok =>
      have h2 : arenaStep st.arena (Decl.gen ⟨.typeTok, lparen, specs, decs⟩) =
          (typeSpecsOf specs).foldl typeArenaUpdate st.arena := rfl
      rw [h2]
      simp only [categorizeStep]
      rw [addTypeSpec_foldl]
  · by_cases hmain : (f.name == "main" && f.recv.isNone) = true
    · simp only [categorizeStep, arenaStep, hmain, if_true]
    · by_cases hinit : (f.name == "init" && f.recv.isNone) = true
      · simp only [categorizeStep, arenaStep, hmain, hinit, Bool.false_eq_true, if_false,
          if_true]
      · rcases hrecv : f.recv with _ | r
        · have hm' : (f.name == "main") = false := by
            cases h : f.name == "main"
            · rfl
            · exact absurd (by simp [h, hrecv]) hmain
          have hi' : (f.name == "init") = false := by
            cases h : f.name == "init"
            · rfl
            · exact absurd (by simp [h, hrecv]) hinit
          simp only [categorizeStep, arenaStep, hm', hi', hrecv, Bool.false_eq_true,
            if_false, Option.isNone_none, Bool.and_true]
          split <;> first
          | rfl
          | (split <;> rfl)
        · simp only [categorizeStep, arenaStep, hrecv, Option.isNone_some, Bool.and_false,
            Bool.false_eq_true, if_false]

theorem foldl_arena (u : List Decl) (st : CatState) :
    (u.foldl categorizeStep st).arena = u.foldl arenaStep st.arena := by
  induction u generalizing st with
  | nil => rfl
  | cons d rest ih => rw [List.foldl_cons, List.foldl_cons, ih, step_arena]

/-! ### Arena lookup lemmas -/

theorem arenaFind_arenaSet (a : Arena) (n : String) (g : TypeGroup) (m : String) :
    arenaFind (arenaSet a n g) m = if m = n then some g else arenaFind a m := by
  induction a with
  | nil =>
    by_cases h : m = n
    · simp [arenaSet, arenaFind, h]
    · have h2 : (n == m) = false := by
        simp only [beq_eq_false_iff_ne, ne_eq]
        exact fun he => h he.symm
      simp [arenaSet, arenaFind, h, h2, List.find?]
  | cons p rest ih =>
    obtain ⟨k, v⟩ := p
    by_cases hk : k = n
    · subst hk
      simp only [arenaSet, beq_self_eq_true, if_true]
      by_cases hm : m = k
      · subst hm
        simp [arenaFind, List.find?]
      · have h2 : (k == m) = false := by
          simp only [beq_eq_false_iff_ne, ne_eq]
          exact fun he => hm he.symm
        simp [arenaFind, List.find?, h2, hm]
    · have hk2 : (k == n) = false := by
        simp only [beq_eq_false_iff_ne, ne_eq]
        exact hk
      simp only [arenaSet, hk2, Bool.false_eq_true, if_false]
      by_cases hm : m = k
      · subst hm
        have h3 : (m == m) = true := by simp
        simp only [arenaFind, List.find?, h3]
        simp [hk]
      · have h3 : (k == m) = false := by
          simp only [beq_eq_false_iff_ne, ne_eq]
          exact fun he => hm he.symm
        simp only [arenaFind, List.find?, h3]
        rw [← arenaFind, ← arenaFind, ih]

theorem arenaFind_isSome_arenaSet (a : Arena) (n : String) (g : TypeGroup) (m : String) :
    (arenaFind (arenaSet a n g) m).isSome = ((arenaFind a m).isSome || (n == m)) := by
  rw [arenaFind_arenaSet]
  by_cases h : m = n
  · simp [h]
  · have h2 : (n == m) = false := by
      simp only [beq_eq_false_iff_ne, ne_eq]
      exact fun he => h he.symm
    simp [h, h2]

theorem arenaFind_typeArenaUpdate (a : Arena) (t : TypeSpec) (m : String) :
    arenaFind (typeArenaUpdate a t) m =
      if m = t.name then
        some
          { (match arenaFind a t.name with
              | some g => g
              | none => { typeName := t.name }) with
            typeDecl := some { tok := .typeTok, specs := [.typeSpec t] } }
      else arenaFind a m := by
  unfold typeArenaUpdate
  rw [arenaFind_arenaSet]

/-! ### Which declarations create arena keys

The `typeGroups` map acquires a key for every type name declared anywhere
in the unit (pass 1 seeds all of them), and additionally — lazily, during
pass 2 — for every receiver type name of a method, declared or not.  The
constructor-matching test `typeGroups[returnType] != nil` therefore
succeeds exactly for those names. -/

/-- Whether one spec declares the type name `m`. -/
def specDeclares (m : String) : Spec → Bool
  | .typeSpec t => t.name == m
  | _ => false

/-- Whether a declaration declares type `m`: a `type` block with a spec
of that name. -/
def declaresType (m : String) : Decl → Bool
  | .gen g => g.tok == .typeTok && g.specs.any (specDeclares m)
  | .func _ => false

/-- Whether a declaration is a method whose receiver type name is `m`. -/
def isReceiverOf (m : String) : Decl → Bool
  | .func f => f.recv.isSome && (extractReceiverTypeName f.recv == m)
  | .gen _ => false

/-- Whether a pass-2 step guarantees the arena holds key `m` afterwards. -/
def bringsKey (m : String) (d : Decl) : Bool :=
  declaresType m d || isReceiverOf m d

/-- The constructor list the arena holds for type name `m`. -/
def constructorsOf (a : Arena) (m : String) : List FuncDecl :=
  match arenaFind a m with
  | some g => g.constructors
  | none => []

theorem typeArenaUpdate_isSome (a : Arena) (t : TypeSpec) (m : String) :
    (arenaFind (typeArenaUpdate a t) m).isSome =
      ((arenaFind a m).isSome || (t.name == m)) := by
  unfold typeArenaUpdate
  rw [arenaFind_isSome_arenaSet]

theorem foldl_typeArenaUpdate_isSome (ts : List TypeSpec) (a : Arena) (m : String) :
    (arenaFind (ts.foldl typeArenaUpdate a) m).isSome =
      ((arenaFind a m).isSome || ts.any (fun t => t.name == m)) := by
  induction ts generalizing a with
  | nil => simp
  | cons t rest ih =>
    rw [List.foldl_cons, ih, typeArenaUpdate_isSome]
    simp [Bool.or_assoc]

theorem typeSpecsOf_any (specs : List Spec) (m : String) :
    (typeSpecsOf specs).any (fun t => t.name == m) = specs.any (specDeclares m) := by
  induction specs with
  | nil => rfl
  | cons sp rest ih =>
    rw [List.any_cons, ← ih]
    rcases sp with v | t | p
    · rw [show typeSpecsOf (Spec.value v :: rest) = typeSpecsOf rest from rfl]
      simp [specDeclares]
    · rw [show typeSpecsOf (Spec.typeSpec t :: rest) = t :: typeSpecsOf rest from rfl]
      simp [specDeclares, List.any_cons]
    · rw [show typeSpecsOf (Spec.importSpec p :: rest) = typeSpecsOf rest from rfl]
      simp [specDeclares]

theorem arenaStep_isSome (a : Arena) (d : Decl) (m : String) :
    (arenaFind (arenaStep a d) m).isSome =
      ((arenaFind a m).isSome || bringsKey m d) := by
  rcases d with ⟨tok, lparen, specs, decs⟩ | f
  · cases tok
    case typeTok =>
      have h1 : arenaStep a (Decl.gen ⟨.typeTok, lparen, specs, decs⟩) =
          (typeSpecsOf specs).foldl typeArenaUpdate a := rfl
      rw [h1, foldl_typeArenaUpdate_isSome, typeSpecsOf_any]
      simp [bringsKey, declaresType, isReceiverOf]
    all_goals simp [arenaStep, bringsKey, declaresType, isReceiverOf]
  · by_cases hmain : (f.name == "main" && f.recv.isNone) = true
    · have hrecv : f.recv = none := by
        cases hfr : f.recv
        · rfl
        · rw [hfr] at hmain
          simp at hmain
      have h1 : arenaStep a (Decl.func f) = a := by
        simp only [arenaStep, hmain, if_true]
      rw [h1]
      simp [bringsKey, declaresType, isReceiverOf, hrecv]
    · by_cases hinit : (f.name == "init" && f.recv.isNone) = true
      · have hrecv : f.recv = none := by
          cases hfr : f.recv
          · rfl
          · rw [hfr] at hinit
            simp at hinit
        have h1 : arenaStep a (Decl.func f) = a := by
          simp only [arenaStep, hmain, hinit, Bool.false_eq_true, if_false, if_true]
        rw [h1]
        simp [bringsKey, declaresType, isReceiverOf, hrecv]
      · rcases hrecv : f.recv with _ | r
        · have hm' : (f.name == "main") = false := by
            cases h : f.name == "main"
            · rfl
            · exact absurd (by simp [h, hrecv]) hmain
          have hi' : (f.name == "init") = false := by
            cases h : f.name == "init"
            · rfl
            · exact absurd (by simp [h, hrecv]) hinit
          rcases hmg : (if (strStartsWith "New" f.name || strStartsWith "Must" f.name)
                && (getFirstReturnTypeName f != "") then
              arenaFind a (getFirstReturnTypeName f) else none) with _ | g
          · simp only [arenaStep, hm', hi', hrecv, Option.isNone_none, Bool.and_true,
              Bool.false_eq_true, if_false, hmg]
            simp [bringsKey, declaresType, isReceiverOf, hrecv]
          · simp only [arenaStep, hm', hi', hrecv, Option.isNone_none, Bool.and_true,
              Bool.false_eq_true, if_false, hmg]
            rw [arenaFind_isSome_arenaSet]
            have hcond : ((strStartsWith "New" f.name || strStartsWith "Must" f.name)
                && (getFirstReturnTypeName f != "")) = true := by
              by_contra hc
              rw [if_neg hc] at hmg
              exact Option.noConfusion hmg
            rw [if_pos hcond] at hmg
            by_cases hXm : getFirstReturnTypeName f = m
            · have : (arenaFind a m).isSome = true := by rw [← hXm, hmg]; rfl
              simp [this, bringsKey, declaresType, isReceiverOf, hrecv]
            · have h2 : (getFirstReturnTypeName f == m) = false := by
                simp only [beq_eq_false_iff_ne, ne_eq]
                exact hXm
              simp [h2, bringsKey, declaresType, isReceiverOf, hrecv]
        · simp only [arenaStep, hrecv, Option.isNone_some, Bool.and_false,
            Bool.false_eq_true, if_false]
          rw [arenaFind_isSome_arenaSet]
          simp [bringsKey, declaresType, isReceiverOf, hrecv]

theorem foldl_arenaStep_isSome (ds : List Decl) (a : Arena) (m : String) :
    (arenaFind (ds.foldl arenaStep a) m).isSome =
      ((arenaFind a m).isSome || ds.any (bringsKey m)) := by
  induction ds generalizing a with
  | nil => simp
  | cons d rest ih =>
    rw [List.foldl_cons, ih, arenaStep_isSome]
    simp [Bool.or_assoc]

/-- One pass-1 step (the fold body of `collectTypeNames`, named so the
pass-1 arena can be characterised). -/
def ctStep (a : Arena) (d : Decl) : Arena :=
  match d with
  | .gen genDecl =>
    if genDecl.tok == .typeTok then
      genDecl.specs.foldl
        (fun a s =>
          match s with
          | .typeSpec tspec => arenaSet a tspec.name { typeName := tspec.name }
          | _ => a)
        a
    else a
  | _ => a

theorem collectTypeNames_eq_foldl (u : List Decl) :
    collectTypeNames u = u.foldl ctStep [] := rfl

theorem ctSpec_foldl_isSome (specs : List Spec) (a : Arena) (m : String) :
    (arenaFind
        (specs.foldl
          (fun a s =>
            match s with
            | .typeSpec tspec => arenaSet a tspec.name { typeName := tspec.name }
            | _ => a)
          a) m).isSome =
      ((arenaFind a m).isSome || specs.any (specDeclares m)) := by
  induction specs generalizing a with
  | nil => simp
  | cons sp rest ih =>
    rw [List.foldl_cons, ih]
    rcases sp with v | t | p
    · simp [specDeclares]
    · show ((arenaFind (arenaSet a t.name { typeName := t.name }) m).isSome
          || rest.any (specDeclares m)) = _
      rw [arenaFind_isSome_arenaSet]
      simp [specDeclares, Bool.or_assoc]
    · simp [specDeclares]

theorem ctStep_isSome (a : Arena) (d : Decl) (m : String) :
    (arenaFind (ctStep a d) m).isSome =
      ((arenaFind a m).isSome || declaresType m d) := by
  rcases d with ⟨tok, lparen, specs, decs⟩ | f
  · cases tok
    case typeTok =>
      have h1 : ctStep a (Decl.gen ⟨.typeTok, lparen, specs, decs⟩) =
          specs.foldl
            (fun a s =>
              match s with
              | .typeSpec tspec => arenaSet a tspec.name { typeName := tspec.name }
              | _ => a)
            a := rfl
      rw [h1, ctSpec_foldl_isSome]
      simp [declaresType]
    all_goals simp [ctStep, declaresType]
  · simp [ctStep, declaresType]

theorem collectTypeNames_isSome (u : List Decl) (m : String) :
    (arenaFind (collectTypeNames u) m).isSome = u.any (declaresType m) := by
  rw [collectTypeNames_eq_foldl]
  have h : ∀ (a : Arena), (arenaFind (u.foldl ctStep a) m).isSome =
      ((arenaFind a m).isSome || u.any (declaresType m)) := by
    induction u with
    | nil => simp
    | cons d rest ih =>
      intro a
      rw [List.foldl_cons, ih, ctStep_isSome]
      simp [Bool.or_assoc]
  rw [h []]
  simp [arenaFind]

theorem any_bringsKey (l : List Decl) (m : String) :
    l.any (bringsKey m) = (l.any (declaresType m) || l.any (isReceiverOf m)) := by
  induction l with
  | nil => rfl
  | cons d rest ih =>
    rw [List.any_cons, List.any_cons, List.any_cons, ih]
    show (bringsKey m d || _) = _
    rw [bringsKey]
    cases declaresType m d <;> cases isReceiverOf m d <;> simp

/-- When the pass-2 fold reaches the declaration after prefix `u₁` of unit
`u₁ ++ u₂`, the map has a key `m` iff `m` is declared anywhere in the unit
or is the receiver type name of a method occurring in `u₁`. -/
theorem known_at (u₁ u₂ : List Decl) (m : String) :
    (arenaFind
        ((u₁.foldl categorizeStep
          { arena := collectTypeNames (u₁ ++ u₂) } : CatState).arena) m).isSome =
      ((u₁ ++ u₂).any (declaresType m) || u₁.any (isReceiverOf m)) := by
  rw [foldl_arena]
  show (arenaFind (u₁.foldl arenaStep (collectTypeNames (u₁ ++ u₂))) m).isSome = _
  rw [foldl_arenaStep_isSome, collectTypeNames_isSome, any_bringsKey, List.any_append]
  cases u₁.any (declaresType m) <;> cases u₂.any (declaresType m) <;>
    cases u₁.any (isReceiverOf m) <;> rfl

/-! ### The constructor-matching decision (claim C5) -/

/-- Pass-2 step on a standalone `New`/`Must` function whose first return
type has a group in the map: the function joins that group's constructor
list and the function buckets are untouched. -/
theorem step_ctor_pos (st : CatState) (f : FuncDecl) (X : String) (g : TypeGroup)
    (hrecv : f.recv = none) (hm : (f.name == "main") = false)
    (hi : (f.name == "init") = false)
    (hp : (strStartsWith "New" f.name || strStartsWith "Must" f.name) = true)
    (hrt : getFirstReturnTypeName f = X) (hne : X ≠ "")
    (hfind : arenaFind st.arena X = some g) :
    categorizeStep st (.func f) =
      { st with
        arena := arenaSet st.arena X
          { g with constructors := g.constructors ++ [f] } } := by
  have hne' : (X != "") = true := bne_iff_ne.mpr hne
  simp only [categorizeStep, hm, hi, hrecv, Option.isNone_none, Bool.and_true,
    Bool.false_and, Bool.false_eq_true, if_false, hrt, hp, hne', Bool.true_and,
    if_true, hfind]

/-- Pass-2 step on a standalone function that is not matched as a
constructor: it goes to the function bucket of its case. -/
theorem step_ctor_none (st : CatState) (f : FuncDecl)
    (hrecv : f.recv = none) (hm : (f.name == "main") = false)
    (hi : (f.name == "init") = false)
    (hmg : (if (strStartsWith "New" f.name || strStartsWith "Must" f.name)
          && (getFirstReturnTypeName f != "") then
        arenaFind st.arena (getFirstReturnTypeName f) else none) = none) :
    categorizeStep st (.func f) =
      if isExported f.name then { st with ExportedFuncs := st.ExportedFuncs ++ [f] }
      else { st with UnexportedFuncs := st.UnexportedFuncs ++ [f] } := by
  simp only [categorizeStep, hm, hi, hrecv, Option.isNone_none, Bool.and_true,
    Bool.false_and, Bool.false_eq_true, if_false, hmg]

/-- One step of pass 2 on a standalone non-`main`/`init` function files it
under `X`'s constructor list (leaving the standalone buckets alone) iff the
name has a constructor prefix, the first return type is `X ≠ ""`, and the
map holds a group for `X`. -/
theorem constructor_step_iff (st : CatState) (f : FuncDecl) (X : String)
    (hrecv : f.recv = none) (hm : (f.name == "main") = false)
    (hi : (f.name == "init") = false) :
    (constructorsOf (categorizeStep st (.func f)).arena X =
        constructorsOf st.arena X ++ [f]
      ∧ (categorizeStep st (.func f)).ExportedFuncs = st.ExportedFuncs
      ∧ (categorizeStep st (.func f)).UnexportedFuncs = st.UnexportedFuncs)
    ↔ ((strStartsWith "New" f.name || strStartsWith "Must" f.name) = true
      ∧ getFirstReturnTypeName f = X ∧ X ≠ ""
      ∧ (arenaFind st.arena X).isSome = true) := by
  rcases hmg : (if (strStartsWith "New" f.name || strStartsWith "Must" f.name)
        && (getFirstReturnTypeName f != "") then
      arenaFind st.arena (getFirstReturnTypeName f) else none) with _ | g
  · rw [step_ctor_none st f hrecv hm hi hmg]
    constructor
    · rintro ⟨-, hE, hU⟩
      exfalso
      by_cases he : isExported f.name = true
      · rw [if_pos he] at hE
        simp at hE
      · rw [if_neg he] at hU
        simp at hU
    · rintro ⟨hp, hrt, hne, hs⟩
      exfalso
      have hne' : (getFirstReturnTypeName f != "") = true := by
        rw [hrt]
        exact bne_iff_ne.mpr hne
      rw [if_pos (show ((strStartsWith "New" f.name || strStartsWith "Must" f.name)
          && (getFirstReturnTypeName f != "")) = true by rw [hp, hne']; rfl)] at hmg
      rw [hrt] at hmg
      rw [hmg] at hs
      simp at hs
  · have hcond : ((strStartsWith "New" f.name || strStartsWith "Must" f.name)
        && (getFirstReturnTypeName f != "")) = true := by
      by_contra hc
      rw [if_neg hc] at hmg
      exact Option.noConfusion hmg
    rw [if_pos hcond] at hmg
    rw [Bool.and_eq_true] at hcond
    obtain ⟨hp, hne'⟩ := hcond
    have hne : getFirstReturnTypeName f ≠ "" := bne_iff_ne.mp hne'
    rw [step_ctor_pos st f (getFirstReturnTypeName f) g hrecv hm hi hp rfl hne hmg]
    constructor
    · rintro ⟨hc, -, -⟩
      by_cases hX : X = getFirstReturnTypeName f
      · refine ⟨hp, hX.symm, ?_, ?_⟩
        · rw [hX]
          exact hne
        · rw [hX, hmg]
          rfl
      · exfalso
        have h1 : constructorsOf
            (arenaSet st.arena (getFirstReturnTypeName f)
              { g with constructors := g.constructors ++ [f] }) X =
            constructorsOf st.arena X := by
          unfold constructorsOf
          rw [arenaFind_arenaSet, if_neg hX]
        rw [show ({ st with
              arena := arenaSet st.arena (getFirstReturnTypeName f)
                { g with constructors := g.constructors ++ [f] } } : CatState).arena =
            arenaSet st.arena (getFirstReturnTypeName f)
              { g with constructors := g.constructors ++ [f] } from rfl, h1] at hc
        simp at hc
    · rintro ⟨-, hrt2, -, -⟩
      have hX : X = getFirstReturnTypeName f := hrt2.symm
      subst hX
      refine ⟨?_, rfl, rfl⟩
      show constructorsOf
          (arenaSet st.arena (getFirstReturnTypeName f)
            { g with constructors := g.constructors ++ [f] })
          (getFirstReturnTypeName f) =
        constructorsOf st.arena (getFirstReturnTypeName f) ++ [f]
      unfold constructorsOf
      rw [arenaFind_arenaSet, if_pos rfl, hmg]

/-- The pass-2 state reached after processing the prefix `u₁` of the unit
`u₁ ++ u₂` (pass 1 having seeded the map from the whole unit). -/
def pass2At (u₁ u₂ : List Decl) : CatState :=
  u₁.foldl categorizeStep { arena := collectTypeNames (u₁ ++ u₂) }

/-- **C5** (amended): in the pass over unit `u₁ ++ f :: u₂`, a standalone
non-`main`/`init` function `f` is filed under type `X`'s constructor list
— rather than into the standalone function buckets — if and only if its
name starts with `New` or `Must`, its first declared return type
(unwrapping at most one pointer level) is the nonempty name `X`, and `X`
is either declared anywhere in the unit or is the receiver type name of
some method occurring before `f`.  The claim's "known type of the unit"
is therefore too narrow: an earlier method receiver also counts, and it
makes the decision order-dependent. -/
theorem constructor_filing (u₁ u₂ : List Decl) (f : FuncDecl) (X : String)
    (hrecv : f.recv = none) (hm : (f.name == "main") = false)
    (hi : (f.name == "init") = false) :
    (constructorsOf
          (categorizeStep (pass2At u₁ (Decl.func f :: u₂)) (.func f)).arena X =
        constructorsOf (pass2At u₁ (Decl.func f :: u₂)).arena X ++ [f]
      ∧ (categorizeStep (pass2At u₁ (Decl.func f :: u₂)) (.func f)).ExportedFuncs =
          (pass2At u₁ (Decl.func f :: u₂)).ExportedFuncs
      ∧ (categorizeStep (pass2At u₁ (Decl.func f :: u₂)) (.func f)).UnexportedFuncs =
          (pass2At u₁ (Decl.func f :: u₂)).UnexportedFuncs)
    ↔ ((strStartsWith "New" f.name || strStartsWith "Must" f.name) = true
      ∧ getFirstReturnTypeName f = X ∧ X ≠ ""
      ∧ ((u₁ ++ Decl.func f :: u₂).any (declaresType X)
          || u₁.any (isReceiverOf X)) = true) := by
  have hknown : (arenaFind (pass2At u₁ (Decl.func f :: u₂)).arena X).isSome =
      ((u₁ ++ Decl.func f :: u₂).any (declaresType X)
        || u₁.any (isReceiverOf X)) :=
    known_at u₁ (Decl.func f :: u₂) X
  rw [constructor_step_iff (pass2At u₁ (Decl.func f :: u₂)) f X hrecv hm hi, hknown]

/-- A method on the (undeclared) type `Foo`. -/
def c5Method : FuncDecl := { name := "Bar", recv := some (.ident "Foo") }

/-- A constructor-shaped function returning `Foo`. -/
def c5New : FuncDecl := { name := "NewFoo", results := [.ident "Foo"] }

/-- The unit refuting claim C5 as stated: a method on `Foo` followed by
`NewFoo`, with no `type Foo` declaration anywhere. -/
def c5Unit : List Decl := [.func c5Method, .func c5New]

/-- Counterexample to C5 as stated: no type named `Foo` is declared in the
unit, yet `NewFoo` is filed under `Foo`'s constructor list (the group
surfaces in `ExportedTypes` through the method-only pass) instead of
remaining in the exported standalone function bucket; with the two
declarations swapped the very same function stays standalone. -/
theorem constructor_filing_counterexample :
    c5Unit.any (declaresType "Foo") = false
      ∧ (categorizeDeclarations c5Unit).ExportedTypes =
          [{ typeName := "Foo"
             constructors := [c5New]
             exportedMethods := [c5Method] }]
      ∧ (categorizeDeclarations c5Unit).ExportedFuncs = []
      ∧ (categorizeDeclarations [.func c5New, .func c5Method]).ExportedFuncs =
          [c5New] := by
  decide

/-! ### Idempotence (claim C3) -/

/-- A well-formed unit: an exported enum type with its iota value block,
plus an exported variable. -/
def c3Unit : List Decl :=
  [.gen { tok := .typeTok, specs := [.typeSpec { name := "Status" }] },
   .gen { tok := .constTok, lparen := true,
          specs := [.value { names := ["StatusA"], type := some (.ident "Status"),
                             values := [.ident "iota"] }] },
   .gen { tok := .varTok, specs := [.value { names := ["V"], values := [.lit "1"] }] }]

/-- A `Validate`-accepted configuration whose `EnumLayout` omits `iota`
(the vocabulary is closed but nothing requires completeness). -/
def c3Cfg : Config :=
  { Sections := { Order := validSections }
    Types :=
      { TypeLayout := ["typedef", "constructors", "exported_methods", "unexported_methods"]
        EnumLayout := ["typedef", "exported_methods", "unexported_methods"] }
    Behavior := { Mode := "append" } }

/-- The `Status` type declaration as the reorderer emits it. -/
def c3StatusOut : Decl :=
  .gen { tok := .typeTok,
         specs := [.typeSpec { name := "Status" }]
         decs := { before := .emptyLine } }

/-- The merged exported-variable block as the reorderer emits it. -/
def c3VarOut : Decl :=
  .gen { tok := .varTok, lparen := true,
         specs := [.value { names := ["V"], values := [.lit "1"]
                            decs := { before := .newLine, after := .newLine } }]
         decs := { before := .emptyLine, start := ["// Exported variables."] } }

/-- **C3**: reordering is not idempotent.  Under the valid configuration
`c3Cfg` the first run renders the `Status` enum group through the
`iota`-less `EnumLayout`, silently dropping the value block; the second
run therefore sees a plain type and emits it in the `exported_types`
section — after the variables rather than before them — so
`f (f x cfg) cfg ≠ f x cfg`. -/
theorem reorder_not_idempotent :
    validate c3Cfg = none
      ∧ fileWithConfig c3Unit c3Cfg = [c3StatusOut, c3VarOut]
      ∧ fileWithConfig (fileWithConfig c3Unit c3Cfg) c3Cfg = [c3VarOut, c3StatusOut]
      ∧ fileWithConfig (fileWithConfig c3Unit c3Cfg) c3Cfg ≠
          fileWithConfig c3Unit c3Cfg := by
  decide

/-! ### Drop mode (claim C6) -/

/-- **C6**: with `Behavior.Mode = "drop"` the reassembler skips the
collect-into-Uncategorized step entirely and the output is exactly the
concatenation, in `Sections.Order` order, of the emissions of the named
sections from the untouched categorization; consequently every output
declaration is reachable from some configured section's emitter, and
content of unlisted buckets is never emitted. -/
theorem drop_mode_subset (cat : CategorizedDecls) (cfg : Config)
    (hmode : cfg.Behavior.Mode = "drop") :
    reassembleDeclarationsWithConfig cat cfg =
        (cfg.Sections.Order.map
          (fun sectionName =>
            match getEmitter sectionName with
            | some emitter => emitter cat cfg
            | none => [])).flatten
      ∧ ∀ d ∈ reassembleDeclarationsWithConfig cat cfg,
          ∃ s ∈ cfg.Sections.Order, ∃ e, getEmitter s = some e ∧ d ∈ e cat cfg := by
  have h1 : reassembleDeclarationsWithConfig cat cfg =
      (cfg.Sections.Order.map
        (fun sectionName =>
          match getEmitter sectionName with
          | some emitter => emitter cat cfg
          | none => [])).flatten := by
    unfold reassembleDeclarationsWithConfig
    rw [hmode]
    simp
  refine ⟨h1, ?_⟩
  intro d hd
  rw [h1] at hd
  rw [List.mem_flatten] at hd
  obtain ⟨l, hl, hdl⟩ := hd
  rw [List.mem_map] at hl
  obtain ⟨s, hs, hsl⟩ := hl
  rcases he : getEmitter s with _ | e
  · rw [he] at hsl
    rw [← hsl] at hdl
    exact absurd hdl (List.not_mem_nil d)
  · rw [he] at hsl
    rw [← hsl] at hdl
    exact ⟨s, hs, e, he, hdl⟩

/-- A unit whose single declaration is dropped by `c6Cfg`. -/
def c6Unit : List Decl := [.func { name := "Helper" }]

/-- A drop-mode configuration listing only `imports`. -/
def c6Cfg : Config :=
  { Sections := { Order := ["imports"] }
    Types :=
      { TypeLayout := ["typedef", "constructors", "exported_methods", "unexported_methods"]
        EnumLayout := ["typedef", "iota", "exported_methods", "unexported_methods"] }
    Behavior := { Mode := "drop" } }

/-- Witness: on `c6Unit` under `c6Cfg` the drop-mode equation holds and the
output declaration count is strictly less than the input count. -/
theorem drop_mode_subset_witness :
    (reassembleDeclarationsWithConfig (categorizeDeclarations c6Unit) c6Cfg =
        (c6Cfg.Sections.Order.map
          (fun sectionName =>
            match getEmitter sectionName with
            | some emitter => emitter (categorizeDeclarations c6Unit) c6Cfg
            | none => [])).flatten)
      ∧ (fileWithConfig c6Unit c6Cfg).length < c6Unit.length :=
  ⟨(drop_mode_subset (categorizeDeclarations c6Unit) c6Cfg rfl).1, by decide⟩

/-! ### Item accounting (claim C1)

Conservation is measured over decoration-free content items at the
granularity the merge step works at: `const`/`var`/`type` blocks count
spec by spec (merged blocks are expanded and re-merged), import
declarations count as wholes, and functions by their decoration-free
core.  Emission only rewraps, re-decorates, merges, and reorders, so the
item multiset is the invariant. -/

/-- Forget the decorations of a value spec. -/
def scrubValueSpec (v : ValueSpec) : ValueSpec := { v with decs := {} }

/-- Forget the decorations of a type spec. -/
def scrubTypeSpec (t : TypeSpec) : TypeSpec := { t with decs := {} }

/-- Forget the decorations of a function declaration. -/
def scrubFunc (f : FuncDecl) : FuncDecl := { f with decs := {} }

/-- One decoration-free content fragment of a declaration. -/
inductive Item where
  | importD (g : GenDecl)
  | constV (v : ValueSpec)
  | varV (v : ValueSpec)
  | typeS (t : TypeSpec)
  | funcF (f : FuncDecl)
  | stray (s : Spec)
deriving DecidableEq, Repr

/-- The item of one spec inside a `const`/`var`/`type` block. -/
def specItem (tok : GTok) : Spec → Item
  | .value v =>
    if tok == .varTok then .varV (scrubValueSpec v) else .constV (scrubValueSpec v)
  | .typeSpec t => .typeS (scrubTypeSpec t)
  | .importSpec p => .stray (.importSpec p)

/-- The items of one declaration. -/
def declItems : Decl → List Item
  | .gen g =>
    match g.tok with
    | .importTok => [.importD { g with decs := {} }]
    | _ => g.specs.map (specItem g.tok)
  | .func f => [.funcF (scrubFunc f)]

/-- The items of a declaration list, in order. -/
def itemsOfL (ds : List Decl) : List Item := (ds.map declItems).flatten

/-- The item multiset of a declaration list. -/
def itemsOf (ds : List Decl) : Multiset Item := (itemsOfL ds : Multiset Item)

/-- Items of a standalone function list. -/
def funcItems (l : List FuncDecl) : List Item := l.map (fun f => .funcF (scrubFunc f))

/-- Items of a const spec bucket. -/
def constItems (l : List ValueSpec) : List Item :=
  l.map (fun v => .constV (scrubValueSpec v))

/-- Items of a var spec bucket. -/
def varItems (l : List ValueSpec) : List Item := l.map (fun v => .varV (scrubValueSpec v))

/-- Items of the optional `main`. -/
def mainItems : Option FuncDecl → List Item
  | some m => [.funcF (scrubFunc m)]
  | none => []

/-- Items of one type group. -/
def typeGroupItemsL (tg : TypeGroup) : List Item :=
  (match tg.typeDecl with
    | some d => declItems (.gen d)
    | none => []) ++
  funcItems tg.constructors ++
  funcItems tg.exportedMethods ++
  funcItems tg.unexportedMethods

/-- Items of one enum group. -/
def enumGroupItemsL (eg : EnumGroup) : List Item :=
  (match eg.typeDecl with
    | some d => declItems (.gen d)
    | none => []) ++
  declItems (.gen eg.constDecl) ++
  funcItems eg.exportedMethods ++
  funcItems eg.unexportedMethods

/-- All items of a categorization, in bucket order. -/
def catItemsL (cat : CategorizedDecls) : List Item :=
  itemsOfL cat.Imports ++ mainItems cat.Main ++ funcItems cat.Init ++
  constItems cat.ExportedConsts ++ (cat.ExportedEnums.map enumGroupItemsL).flatten ++
  varItems cat.ExportedVars ++ (cat.ExportedTypes.map typeGroupItemsL).flatten ++
  funcItems cat.ExportedFuncs ++
  constItems cat.UnexportedConsts ++ (cat.UnexportedEnums.map enumGroupItemsL).flatten ++
  varItems cat.UnexportedVars ++ (cat.UnexportedTypes.map typeGroupItemsL).flatten ++
  funcItems cat.UnexportedFuncs ++ itemsOfL cat.Uncategorized

/-- The item multiset of a categorization. -/
def catItems (cat : CategorizedDecls) : Multiset Item := (catItemsL cat : Multiset Item)

/-- The items a named section draws from the categorization. -/
def sectionItems (cat : CategorizedDecls) (s : String) : List Item :=
  if s = "imports" then itemsOfL cat.Imports
  else if s = "main" then mainItems cat.Main
  else if s = "init" then funcItems cat.Init
  else if s = "exported_consts" then constItems cat.ExportedConsts
  else if s = "exported_enums" then (cat.ExportedEnums.map enumGroupItemsL).flatten
  else if s = "exported_vars" then varItems cat.ExportedVars
  else if s = "exported_types" then (cat.ExportedTypes.map typeGroupItemsL).flatten
  else if s = "exported_funcs" then funcItems cat.ExportedFuncs
  else if s = "unexported_consts" then constItems cat.UnexportedConsts
  else if s = "unexported_enums" then (cat.UnexportedEnums.map enumGroupItemsL).flatten
  else if s = "unexported_vars" then varItems cat.UnexportedVars
  else if s = "unexported_types" then (cat.UnexportedTypes.map typeGroupItemsL).flatten
  else if s = "unexported_funcs" then funcItems cat.UnexportedFuncs
  else if s = "uncategorized" then itemsOfL cat.Uncategorized
  else []

theorem coe_append (s t : List Item) :
    ((s ++ t : List Item) : Multiset Item) = (s : Multiset Item) + (t : Multiset Item) :=
  (Multiset.coe_add s t).symm

theorem itemsOfL_append (a b : List Decl) :
    itemsOfL (a ++ b) = itemsOfL a ++ itemsOfL b := by
  simp [itemsOfL]

theorem itemsOf_append (a b : List Decl) :
    itemsOf (a ++ b) = itemsOf a + itemsOf b := by
  unfold itemsOf
  rw [itemsOfL_append, coe_append]

theorem itemsOfL_flatten (l : List (List Decl)) :
    itemsOfL l.flatten = (l.map itemsOfL).flatten := by
  induction l with
  | nil => rfl
  | cons x xs ih => simp [List.flatten_cons, itemsOfL_append, ih]

theorem coe_flatten_eq_sum (l : List (List Item)) :
    ((l.flatten : List Item) : Multiset Item) =
      (l.map Multiset.ofList).sum := by
  induction l with
  | nil => rfl
  | cons x xs ih =>
    rw [List.flatten_cons, List.map_cons, List.sum_cons, coe_append, ih]

theorem declItems_setDecs (g : GenDecl) (d : Decs) :
    declItems (.gen { g with decs := d }) = declItems (.gen g) := by
  rcases g with ⟨tok, lp, specs, decs⟩
  cases tok <;> rfl

theorem declItems_withEmptyLineGen (g : GenDecl) :
    declItems (.gen (withEmptyLineGen g)) = declItems (.gen g) :=
  declItems_setDecs g _

theorem declItems_withEmptyLineFunc (f : FuncDecl) :
    declItems (.func (withEmptyLineFunc f)) = [.funcF (scrubFunc f)] := rfl

theorem itemsOfL_funcMap (l : List FuncDecl) :
    itemsOfL (l.map (fun f => Decl.func (withEmptyLineFunc f))) = funcItems l := by
  induction l with
  | nil => rfl
  | cons f fs ih =>
    simp only [List.map_cons, itemsOfL, List.flatten_cons] at ih ⊢
    rw [declItems_withEmptyLineFunc, ih]
    rfl

theorem mergeConst_items (specs : List ValueSpec) (c : String) :
    declItems (.gen (mergeConstSpecs specs c)) = constItems specs := by
  unfold mergeConstSpecs constItems
  show (specs.map _).map (specItem .constTok) = _
  rw [List.map_map]
  induction specs with
  | nil => rfl
  | cons v vs ih => simp only [List.map_cons, ih]; rfl

theorem mergeVar_items (specs : List ValueSpec) (c : String) :
    declItems (.gen (mergeVarSpecs specs c)) = varItems specs := by
  unfold mergeVarSpecs varItems
  show (specs.map _).map (specItem .varTok) = _
  rw [List.map_map]
  induction specs with
  | nil => rfl
  | cons v vs ih => simp only [List.map_cons, ih]; rfl

theorem itemsOfL_nil : itemsOfL [] = [] := rfl

theorem itemsOfL_singleton (d : Decl) : itemsOfL [d] = declItems d := by
  show declItems d ++ [] = declItems d
  exact List.append_nil _

theorem flattenTypeGroup_items (tg : TypeGroup) :
    itemsOfL (flattenTypeGroup tg) = typeGroupItemsL tg := by
  rcases htd : tg.typeDecl with _ | d <;>
    (unfold flattenTypeGroup typeGroupItemsL
     rw [htd]
     simp only [itemsOfL_append, itemsOfL_funcMap, itemsOfL_singleton, itemsOfL_nil,
       declItems_withEmptyLineGen])

theorem flattenEnumGroup_items (eg : EnumGroup) :
    itemsOfL (flattenEnumGroup eg) = enumGroupItemsL eg := by
  rcases htd : eg.typeDecl with _ | d <;>
    (unfold flattenEnumGroup enumGroupItemsL
     rw [htd]
     simp only [itemsOfL_append, itemsOfL_funcMap, itemsOfL_singleton, itemsOfL_nil,
       declItems_withEmptyLineGen])

/-! #### The collect step conserves items -/

theorem collectExportedConsts_items (c : CategorizedDecls) (inc : List String) :
    catItems (collectExportedConsts c inc) = catItems c := by
  unfold collectExportedConsts
  split
  · unfold catItems catItemsL
    simp only [itemsOfL_append, itemsOfL_singleton, mergeConst_items, coe_append,
      constItems, List.map_nil, Multiset.coe_nil]
    abel
  · rfl

theorem collectExportedVars_items (c : CategorizedDecls) (inc : List String) :
    catItems (collectExportedVars c inc) = catItems c := by
  unfold collectExportedVars
  split
  · unfold catItems catItemsL
    simp only [itemsOfL_append, itemsOfL_singleton, mergeVar_items, coe_append,
      varItems, List.map_nil, Multiset.coe_nil]
    abel
  · rfl

theorem collectExportedFuncs_items (c : CategorizedDecls) (inc : List String) :
    catItems (collectExportedFuncs c inc) = catItems c := by
  unfold collectExportedFuncs
  split
  · unfold catItems catItemsL
    simp only [itemsOfL_append, itemsOfL_funcMap, coe_append,
      funcItems, List.map_nil, Multiset.coe_nil]
    abel
  · rfl

theorem collectUnexportedConsts_items (c : CategorizedDecls) (inc : List String) :
    catItems (collectUnexportedConsts c inc) = catItems c := by
  unfold collectUnexportedConsts
  split
  · unfold catItems catItemsL
    simp only [itemsOfL_append, itemsOfL_singleton, mergeConst_items, coe_append,
      constItems, List.map_nil, Multiset.coe_nil]
    abel
  · rfl

theorem collectUnexportedVars_items (c : CategorizedDecls) (inc : List String) :
    catItems (collectUnexportedVars c inc) = catItems c := by
  unfold collectUnexportedVars
  split
  · unfold catItems catItemsL
    simp only [itemsOfL_append, itemsOfL_singleton, mergeVar_items, coe_append,
      varItems, List.map_nil, Multiset.coe_nil]
    abel
  · rfl

theorem collectUnexportedFuncs_items (c : CategorizedDecls) (inc : List String) :
    catItems (collectUnexportedFuncs c inc) = catItems c := by
  unfold collectUnexportedFuncs
  split
  · unfold catItems catItemsL
    simp only [itemsOfL_append, itemsOfL_funcMap, coe_append,
      funcItems, List.map_nil, Multiset.coe_nil]
    abel
  · rfl

theorem collectExportedTypes_items (c : CategorizedDecls) (inc : List String) :
    catItems (collectExportedTypes c inc) = catItems c := by
  unfold collectExportedTypes
  split
  · unfold catItems catItemsL
    simp only [itemsOfL_append, itemsOfL_flatten, List.map_map, coe_append,
      List.map_nil, Multiset.coe_nil, List.flatten_nil]
    rw [show (itemsOfL ∘ flattenTypeGroup) = typeGroupItemsL from
      funext flattenTypeGroup_items]
    abel
  · rfl

theorem collectUnexportedTypes_items (c : CategorizedDecls) (inc : List String) :
    catItems (collectUnexportedTypes c inc) = catItems c := by
  unfold collectUnexportedTypes
  split
  · unfold catItems catItemsL
    simp only [itemsOfL_append, itemsOfL_flatten, List.map_map, coe_append,
      List.map_nil, Multiset.coe_nil, List.flatten_nil]
    rw [show (itemsOfL ∘ flattenTypeGroup) = typeGroupItemsL from
      funext flattenTypeGroup_items]
    abel
  · rfl

theorem collectExportedEnums_items (c : CategorizedDecls) (inc : List String) :
    catItems (collectExportedEnums c inc) = catItems c := by
  unfold collectExportedEnums
  split
  · unfold catItems catItemsL
    simp only [itemsOfL_append, itemsOfL_flatten, List.map_map, coe_append,
      List.map_nil, Multiset.coe_nil, List.flatten_nil]
    rw [show (itemsOfL ∘ flattenEnumGroup) = enumGroupItemsL from
      funext flattenEnumGroup_items]
    abel
  · rfl

theorem collectUnexportedEnums_items (c : CategorizedDecls) (inc : List String) :
    catItems (collectUnexportedEnums c inc) = catItems c := by
  unfold collectUnexportedEnums
  split
  · unfold catItems catItemsL
    simp only [itemsOfL_append, itemsOfL_flatten, List.map_map, coe_append,
      List.map_nil, Multiset.coe_nil, List.flatten_nil]
    rw [show (itemsOfL ∘ flattenEnumGroup) = enumGroupItemsL from
      funext flattenEnumGroup_items]
    abel
  · rfl

/-- `CollectUncategorized` moves content but never drops or duplicates it:
the item multiset is unchanged. -/
theorem collect_items (cat : CategorizedDecls) (inc : List String) :
    catItems (collectUncategorized cat inc) = catItems cat := by
  unfold collectUncategorized
  rw [collectUnexportedEnums_items, collectExportedEnums_items,
    collectUnexportedTypes_items, collectExportedTypes_items,
    collectUnexportedFuncs_items, collectUnexportedVars_items,
    collectUnexportedConsts_items, collectExportedFuncs_items,
    collectExportedVars_items, collectExportedConsts_items]

/-! #### Emission items -/

/-- Declarations contributed by one enum-layout element. -/
def enumElemDecls (eg : EnumGroup) (elem : String) : List Decl :=
  if elem == "typedef" then
    match eg.typeDecl with
    | some d => [.gen (withEmptyLineGen d)]
    | none => []
  else if elem == "iota" then
    [.gen
      { eg.constDecl with
        decs :=
          { eg.constDecl.decs with
            before := .emptyLine
            start := ["// " ++ eg.typeName ++ " values."] } }]
  else if elem == "exported_methods" then
    eg.exportedMethods.map (fun m => .func (withEmptyLineFunc m))
  else if elem == "unexported_methods" then
    eg.unexportedMethods.map (fun m => .func (withEmptyLineFunc m))
  else []

theorem emitEnumGroup_foldl (eg : EnumGroup) :
    ∀ (layout : List String) (init : List Decl),
      layout.foldl
        (fun decls elem =>
          if elem == "typedef" then
            match eg.typeDecl with
            | some d => decls ++ [.gen (withEmptyLineGen d)]
            | none => decls
          else if elem == "iota" then
            decls ++
              [.gen
                { eg.constDecl with
                  decs :=
                    { eg.constDecl.decs with
                      before := .emptyLine
                      start := ["// " ++ eg.typeName ++ " values."] } }]
          else if elem == "exported_methods" then
            decls ++ eg.exportedMethods.map (fun m => .func (withEmptyLineFunc m))
          else if elem == "unexported_methods" then
            decls ++ eg.unexportedMethods.map (fun m => .func (withEmptyLineFunc m))
          else decls)
        init =
      init ++ (layout.map (enumElemDecls eg)).flatten := by
  intro layout
  induction layout with
  | nil =>
    intro init
    simp
  | cons e rest ih =>
    intro init
    rw [List.foldl_cons, ih, List.map_cons, List.flatten_cons, ← List.append_assoc]
    congr 1
    unfold enumElemDecls
    by_cases h1 : (e == "typedef") = true
    · rw [if_pos h1, if_pos h1]
      rcases eg.typeDecl with _ | d <;> simp
    · rw [if_neg h1, if_neg h1]
      by_cases h2 : (e == "iota") = true
      · rw [if_pos h2, if_pos h2]
      · rw [if_neg h2, if_neg h2]
        by_cases h3 : (e == "exported_methods") = true
        · rw [if_pos h3, if_pos h3]
        · rw [if_neg h3, if_neg h3]
          by_cases h4 : (e == "unexported_methods") = true
          · rw [if_pos h4, if_pos h4]
          · rw [if_neg h4, if_neg h4]
            simp

theorem emitEnumGroup_eq (eg : EnumGroup) (layout : List String) :
    emitEnumGroup eg layout = (layout.map (enumElemDecls eg)).flatten := by
  have h := emitEnumGroup_foldl eg layout []
  rw [List.nil_append] at h
  exact h

theorem enumElemItems (eg : EnumGroup) :
    ((validEnumLayoutElements.map (enumElemDecls eg)).map itemsOfL).flatten =
      enumGroupItemsL eg := by
  unfold validEnumLayoutElements enumGroupItemsL
  rcases htd : eg.typeDecl with _ | d <;>
    simp [enumElemDecls, itemsOfL_funcMap, itemsOfL_singleton, itemsOfL_nil,
      declItems_withEmptyLineGen, declItems_setDecs, htd]

theorem emitEnumGroup_items (eg : EnumGroup) (layout : List String)
    (hperm : layout.Perm validEnumLayoutElements) :
    itemsOf (emitEnumGroup eg layout) = (enumGroupItemsL eg : Multiset Item) := by
  unfold itemsOf
  rw [emitEnumGroup_eq, itemsOfL_flatten, coe_flatten_eq_sum]
  rw [(((hperm.map (enumElemDecls eg)).map itemsOfL).map Multiset.ofList).sum_eq]
  rw [← coe_flatten_eq_sum, enumElemItems]

theorem emitEnumGroups_items (gs : List EnumGroup) (layout : List String)
    (hperm : layout.Perm validEnumLayoutElements) :
    itemsOf (emitEnumGroups gs layout) =
      ((gs.map enumGroupItemsL).flatten : Multiset Item) := by
  induction gs with
  | nil => rfl
  | cons g rest ih =>
    show itemsOf
        (emitEnumGroup g layout ++
          (rest.map (fun eg => emitEnumGroup eg layout)).flatten) = _
    rw [itemsOf_append, emitEnumGroup_items g layout hperm]
    have ih' : itemsOf ((rest.map (fun eg => emitEnumGroup eg layout)).flatten) =
        ((rest.map enumGroupItemsL).flatten : Multiset Item) := ih
    rw [ih', List.map_cons, List.flatten_cons, coe_append]

/-- Declarations contributed by one type-layout element. -/
def typeElemDecls (tg : TypeGroup) (elem : String) : List Decl :=
  if elem == "typedef" then
    match tg.typeDecl with
    | some d => [.gen (withEmptyLineGen d)]
    | none => []
  else if elem == "constructors" then
    tg.constructors.map (fun c => .func (withEmptyLineFunc c))
  else if elem == "exported_methods" then
    tg.exportedMethods.map (fun m => .func (withEmptyLineFunc m))
  else if elem == "unexported_methods" then
    tg.unexportedMethods.map (fun m => .func (withEmptyLineFunc m))
  else []

theorem emitTypeGroup_foldl (tg : TypeGroup) :
    ∀ (layout : List String) (init : List Decl),
      layout.foldl
        (fun decls elem =>
          if elem == "typedef" then
            match tg.typeDecl with
            | some d => decls ++ [.gen (withEmptyLineGen d)]
            | none => decls
          else if elem == "constructors" then
            decls ++ tg.constructors.map (fun c => .func (withEmptyLineFunc c))
          else if elem == "exported_methods" then
            decls ++ tg.exportedMethods.map (fun m => .func (withEmptyLineFunc m))
          else if elem == "unexported_methods" then
            decls ++ tg.unexportedMethods.map (fun m => .func (withEmptyLineFunc m))
          else decls)
        init =
      init ++ (layout.map (typeElemDecls tg)).flatten := by
  intro layout
  induction layout with
  | nil =>
    intro init
    simp
  | cons e rest ih =>
    intro init
    rw [List.foldl_cons, ih, List.map_cons, List.flatten_cons, ← List.append_assoc]
    congr 1
    unfold typeElemDecls
    by_cases h1 : (e == "typedef") = true
    · rw [if_pos h1, if_pos h1]
      rcases tg.typeDecl with _ | d <;> simp
    · rw [if_neg h1, if_neg h1]
      by_cases h2 : (e == "constructors") = true
      · rw [if_pos h2, if_pos h2]
      · rw [if_neg h2, if_neg h2]
        by_cases h3 : (e == "exported_methods") = true
        · rw [if_pos h3, if_pos h3]
        · rw [if_neg h3, if_neg h3]
          by_cases h4 : (e == "unexported_methods") = true
          · rw [if_pos h4, if_pos h4]
          · rw [if_neg h4, if_neg h4]
            simp

theorem emitTypeGroup_eq (tg : TypeGroup) (layout : List String) :
    emitTypeGroup tg layout = (layout.map (typeElemDecls tg)).flatten := by
  have h := emitTypeGroup_foldl tg layout []
  rw [List.nil_append] at h
  exact h

theorem typeElemItems (tg : TypeGroup) :
    ((validTypeLayoutElements.map (typeElemDecls tg)).map itemsOfL).flatten =
      typeGroupItemsL tg := by
  unfold validTypeLayoutElements typeGroupItemsL
  rcases htd : tg.typeDecl with _ | d <;>
    simp [typeElemDecls, itemsOfL_funcMap, itemsOfL_singleton, itemsOfL_nil,
      declItems_withEmptyLineGen, htd]

theorem emitTypeGroup_items (tg : TypeGroup) (layout : List String)
    (hperm : layout.Perm validTypeLayoutElements) :
    itemsOf (emitTypeGroup tg layout) = (typeGroupItemsL tg : Multiset Item) := by
  unfold itemsOf
  rw [emitTypeGroup_eq, itemsOfL_flatten, coe_flatten_eq_sum]
  rw [(((hperm.map (typeElemDecls tg)).map itemsOfL).map Multiset.ofList).sum_eq]
  rw [← coe_flatten_eq_sum, typeElemItems]

theorem emitTypeGroups_items (gs : List TypeGroup) (layout : List String)
    (hperm : layout.Perm validTypeLayoutElements) :
    itemsOf (emitTypeGroups gs layout) =
      ((gs.map typeGroupItemsL).flatten : Multiset Item) := by
  induction gs with
  | nil => rfl
  | cons g rest ih =>
    show itemsOf
        (emitTypeGroup g layout ++
          (rest.map (fun tg => emitTypeGroup tg layout)).flatten) = _
    rw [itemsOf_append, emitTypeGroup_items g layout hperm]
    have ih' : itemsOf ((rest.map (fun tg => emitTypeGroup tg layout)).flatten) =
        ((rest.map typeGroupItemsL).flatten : Multiset Item) := ih
    rw [ih', List.map_cons, List.flatten_cons, coe_append]

/-- Each configured section emits exactly its bucket's items, provided the
two layouts are (some permutation of) the complete vocabularies; unknown
section names emit nothing. -/
theorem emit_section_items (cat : CategorizedDecls) (cfg : Config) (s : String)
    (hTLp : cfg.Types.TypeLayout.Perm validTypeLayoutElements)
    (hELp : cfg.Types.EnumLayout.Perm validEnumLayoutElements) :
    itemsOf
        (match getEmitter s with
          | some e => e cat cfg
          | none => []) =
      (sectionItems cat s : Multiset Item) := by
  by_cases hs : s ∈ validSections
  · have hs' : s = "imports" ∨ s = "main" ∨ s = "init" ∨ s = "exported_consts"
        ∨ s = "exported_enums" ∨ s = "exported_vars" ∨ s = "exported_types"
        ∨ s = "exported_funcs" ∨ s = "unexported_consts" ∨ s = "unexported_enums"
        ∨ s = "unexported_vars" ∨ s = "unexported_types" ∨ s = "unexported_funcs"
        ∨ s = "uncategorized" := by
      simpa [validSections] using hs
    rcases hs' with h|h|h|h|h|h|h|h|h|h|h|h|h|h <;> subst h
    · rfl
    · rw [show getEmitter "main" = some emitMain from rfl]
      show itemsOf (emitMain cat cfg) = _
      rcases hm : cat.Main with _ | m <;>
        simp [emitMain, sectionItems, mainItems, hm, itemsOf, itemsOfL, declItems]
    · rw [show getEmitter "init" = some emitInit from rfl]
      show itemsOf (emitInit cat cfg) = _
      unfold itemsOf emitInit
      rw [itemsOfL_funcMap]
      rfl
    · rw [show getEmitter "exported_consts" = some emitExportedConsts from rfl]
      show itemsOf (emitExportedConsts cat cfg) = _
      unfold emitExportedConsts
      by_cases he : cat.ExportedConsts.isEmpty = true
      · simp [he, List.isEmpty_iff.mp he, sectionItems, constItems, itemsOf, itemsOfL]
      · simp only [he, Bool.false_eq_true, if_false]
        unfold itemsOf
        rw [itemsOfL_singleton, mergeConst_items]
        rfl
    · rw [show getEmitter "exported_enums" = some emitExportedEnums from rfl]
      show itemsOf (emitExportedEnums cat cfg) = _
      unfold emitExportedEnums
      rw [emitEnumGroups_items _ _ hELp]
      rfl
    · rw [show getEmitter "exported_vars" = some emitExportedVars from rfl]
      show itemsOf (emitExportedVars cat cfg) = _
      unfold emitExportedVars
      by_cases he : cat.ExportedVars.isEmpty = true
      · simp [he, List.isEmpty_iff.mp he, sectionItems, varItems, itemsOf, itemsOfL]
      · simp only [he, Bool.false_eq_true, if_false]
        unfold itemsOf
        rw [itemsOfL_singleton, mergeVar_items]
        rfl
    · rw [show getEmitter "exported_types" = some emitExportedTypes from rfl]
      show itemsOf (emitExportedTypes cat cfg) = _
      unfold emitExportedTypes
      rw [emitTypeGroups_items _ _ hTLp]
      rfl
    · rw [show getEmitter "exported_funcs" = some emitExportedFuncs from rfl]
      show itemsOf (emitExportedFuncs cat cfg) = _
      unfold itemsOf emitExportedFuncs emitFuncs
      rw [itemsOfL_funcMap]
      rfl
    · rw [show getEmitter "unexported_consts" = some emitUnexportedConsts from rfl]
      show itemsOf (emitUnexportedConsts cat cfg) = _
      unfold emitUnexportedConsts
      by_cases he : cat.UnexportedConsts.isEmpty = true
      · simp [he, List.isEmpty_iff.mp he, sectionItems, constItems, itemsOf, itemsOfL]
      · simp only [he, Bool.false_eq_true, if_false]
        unfold itemsOf
        rw [itemsOfL_singleton, mergeConst_items]
        rfl
    · rw [show getEmitter "unexported_enums" = some emitUnexportedEnums from rfl]
      show itemsOf (emitUnexportedEnums cat cfg) = _
      unfold emitUnexportedEnums
      rw [emitEnumGroups_items _ _ hELp]
      rfl
    · rw [show getEmitter "unexported_vars" = some emitUnexportedVars from rfl]
      show itemsOf (emitUnexportedVars cat cfg) = _
      unfold emitUnexportedVars
      by_cases he : cat.UnexportedVars.isEmpty = true
      · simp [he, List.isEmpty_iff.mp he, sectionItems, varItems, itemsOf, itemsOfL]
      · simp only [he, Bool.false_eq_true, if_false]
        unfold itemsOf
        rw [itemsOfL_singleton, mergeVar_items]
        rfl
    · rw [show getEmitter "unexported_types" = some emitUnexportedTypes from rfl]
      show itemsOf (emitUnexportedTypes cat cfg) = _
      unfold emitUnexportedTypes
      rw [emitTypeGroups_items _ _ hTLp]
      rfl
    · rw [show getEmitter "unexported_funcs" = some emitUnexportedFuncs from rfl]
      show itemsOf (emitUnexportedFuncs cat cfg) = _
      unfold itemsOf emitUnexportedFuncs emitFuncs
      rw [itemsOfL_funcMap]
      rfl
    · rfl
  · rw [getEmitter_eq_none hs]
    have hne : ∀ t ∈ validSections, s ≠ t := fun t ht he => hs (he ▸ ht)
    have hz : sectionItems cat s = [] := by
      unfold sectionItems
      rw [if_neg (hne "imports" (by decide)), if_neg (hne "main" (by decide)),
        if_neg (hne "init" (by decide)), if_neg (hne "exported_consts" (by decide)),
        if_neg (hne "exported_enums" (by decide)), if_neg (hne "exported_vars" (by decide)),
        if_neg (hne "exported_types" (by decide)), if_neg (hne "exported_funcs" (by decide)),
        if_neg (hne "unexported_consts" (by decide)),
        if_neg (hne "unexported_enums" (by decide)),
        if_neg (hne "unexported_vars" (by decide)),
        if_neg (hne "unexported_types" (by decide)),
        if_neg (hne "unexported_funcs" (by decide)),
        if_neg (hne "uncategorized" (by decide))]
    rw [hz]
    rfl

/-! #### Conservation of the reassembly -/

theorem catItemsL_eq (cat : CategorizedDecls) :
    catItemsL cat = (validSections.map (sectionItems cat)).flatten := by
  simp [validSections, sectionItems, catItemsL]

theorem sum_over_sub {f : String → Multiset Item} :
    ∀ (L l : List String), l.Nodup → L.Nodup → l ⊆ L →
      (∀ s ∈ L, s ∉ l → f s = 0) →
      (l.map f).sum = (L.map f).sum := by
  intro L
  induction L with
  | nil =>
    intro l _ _ hsub _
    rw [List.subset_nil.mp hsub]
  | cons a L' ih =>
    intro l hl hL hsub hzero
    have hLnd : L'.Nodup := (List.nodup_cons.mp hL).2
    have haL : a ∉ L' := (List.nodup_cons.mp hL).1
    by_cases ha : a ∈ l
    · have hperm : l.Perm (a :: l.erase a) := List.perm_cons_erase ha
      rw [(hperm.map f).sum_eq, List.map_cons, List.sum_cons, List.map_cons,
        List.sum_cons]
      congr 1
      apply ih (l.erase a) (hl.erase a) hLnd
      · intro x hx
        rcases hl.mem_erase_iff.mp hx with ⟨hxa, hxl⟩
        rcases List.mem_cons.mp (hsub hxl) with he | hL'
        · exact absurd he hxa
        · exact hL'
      · intro x hxL' hxe
        apply hzero x (List.mem_cons_of_mem a hxL')
        intro hxl
        have hxa : x ≠ a := fun he => haL (he ▸ hxL')
        exact hxe (hl.mem_erase_iff.mpr ⟨hxa, hxl⟩)
    · rw [List.map_cons, List.sum_cons, hzero a (List.mem_cons_self a L') ha, zero_add]
      apply ih l hl hLnd
      · intro x hx
        rcases List.mem_cons.mp (hsub hx) with he | h
        · exact absurd (he ▸ hx) ha
        · exact h
      · intro x hxL hxl
        exact hzero x (List.mem_cons_of_mem a hxL) hxl

theorem contains_false_of_not_mem {l : List String} {a : String} (h : a ∉ l) :
    l.contains a = false := by
  simp [List.elem_eq_mem, h]

/-- When the four never-moved sections are configured, every other
unconfigured section's bucket is empty after the collect step. -/
theorem sectionItems_zero_of_unlisted (cat : CategorizedDecls) (inc : List String)
    (s : String) (hs : s ∈ validSections)
    (him : "imports" ∈ inc) (hmn : "main" ∈ inc) (hin : "init" ∈ inc)
    (hun : "uncategorized" ∈ inc) (hnot : s ∉ inc) :
    sectionItems (collectUncategorized cat inc) s = [] := by
  have hs' : s = "imports" ∨ s = "main" ∨ s = "init" ∨ s = "exported_consts"
      ∨ s = "exported_enums" ∨ s = "exported_vars" ∨ s = "exported_types"
      ∨ s = "exported_funcs" ∨ s = "unexported_consts" ∨ s = "unexported_enums"
      ∨ s = "unexported_vars" ∨ s = "unexported_types" ∨ s = "unexported_funcs"
      ∨ s = "uncategorized" := by
    simpa [validSections] using hs
  rw [collectUncategorized_eq]
  rcases hs' with h|h|h|h|h|h|h|h|h|h|h|h|h|h <;> subst h
  · exact absurd him hnot
  · exact absurd hmn hnot
  · exact absurd hin hnot
  · by_cases he : cat.ExportedConsts.isEmpty = true
    · simp [sectionItems, hnot, he, List.isEmpty_iff.mp he, constItems]
    · simp [sectionItems, hnot, he, constItems]
  · simp [sectionItems, hnot]
  · by_cases he : cat.ExportedVars.isEmpty = true
    · simp [sectionItems, hnot, he, List.isEmpty_iff.mp he, varItems]
    · simp [sectionItems, hnot, he, varItems]
  · simp [sectionItems, hnot]
  · simp [sectionItems, hnot, funcItems]
  · by_cases he : cat.UnexportedConsts.isEmpty = true
    · simp [sectionItems, hnot, he, List.isEmpty_iff.mp he, constItems]
    · simp [sectionItems, hnot, he, constItems]
  · simp [sectionItems, hnot]
  · by_cases he : cat.UnexportedVars.isEmpty = true
    · simp [sectionItems, hnot, he, List.isEmpty_iff.mp he, varItems]
    · simp [sectionItems, hnot, he, varItems]
  · simp [sectionItems, hnot]
  · simp [sectionItems, hnot, funcItems]
  · exact absurd hun hnot

/-- **C1** (amended): conservation of the reassembly.  For any
categorization and any configuration whose mode is `strict`, `warn` or
`append`, that is valid, whose order names `imports`, `main`, `init` and
`uncategorized`, and whose two layouts are complete, the item multiset of
the reassembled output equals the item multiset of the buckets: every
bucket whose section is unlisted is moved into `Uncategorized` and
emitted there, so nothing is added and nothing is lost by reassembly. -/
theorem conservation (cat : CategorizedDecls) (cfg : Config)
    (hmode : cfg.Behavior.Mode = "strict" ∨ cfg.Behavior.Mode = "warn"
      ∨ cfg.Behavior.Mode = "append")
    (hvalid : ConfigValid cfg)
    (him : "imports" ∈ cfg.Sections.Order)
    (hmn : "main" ∈ cfg.Sections.Order)
    (hin : "init" ∈ cfg.Sections.Order)
    (hun : "uncategorized" ∈ cfg.Sections.Order)
    (hTL : validTypeLayoutElements ⊆ cfg.Types.TypeLayout)
    (hEL : validEnumLayoutElements ⊆ cfg.Types.EnumLayout) :
    itemsOf (reassembleDeclarationsWithConfig cat cfg) = catItems cat := by
  obtain ⟨hsec, hsnd, htl, htlnd, hel, helnd, hmo⟩ := hvalid
  have hTLp : cfg.Types.TypeLayout.Perm validTypeLayoutElements :=
    (List.subperm_of_subset htlnd htl).antisymm
      (List.subperm_of_subset (by decide) hTL)
  have hELp : cfg.Types.EnumLayout.Perm validEnumLayoutElements :=
    (List.subperm_of_subset helnd hel).antisymm
      (List.subperm_of_subset (by decide) hEL)
  have hm' : (cfg.Behavior.Mode != "drop") = true := by
    rcases hmode with h | h | h <;> rw [h] <;> rfl
  have hra : reassembleDeclarationsWithConfig cat cfg =
      (cfg.Sections.Order.map
        (fun sectionName =>
          match getEmitter sectionName with
          | some emitter => emitter (collectUncategorized cat cfg.Sections.Order) cfg
          | none => [])).flatten := by
    unfold reassembleDeclarationsWithConfig
    rw [hm']
    simp
  rw [hra]
  unfold itemsOf
  rw [itemsOfL_flatten, coe_flatten_eq_sum]
  have hpt : ((cfg.Sections.Order.map
        (fun sectionName =>
          match getEmitter sectionName with
          | some emitter => emitter (collectUncategorized cat cfg.Sections.Order) cfg
          | none => [])).map itemsOfL).map Multiset.ofList =
      cfg.Sections.Order.map
        (fun s =>
          (sectionItems (collectUncategorized cat cfg.Sections.Order) s :
            Multiset Item)) := by
    rw [List.map_map, List.map_map]
    apply List.map_congr_left
    intro s hs
    exact emit_section_items (collectUncategorized cat cfg.Sections.Order) cfg s hTLp hELp
  rw [hpt]
  have hzero : ∀ s ∈ validSections, s ∉ cfg.Sections.Order →
      (fun s =>
        (sectionItems (collectUncategorized cat cfg.Sections.Order) s :
          Multiset Item)) s = 0 := by
    intro s hs hnot
    show (sectionItems (collectUncategorized cat cfg.Sections.Order) s : Multiset Item) = 0
    rw [sectionItems_zero_of_unlisted cat cfg.Sections.Order s hs him hmn hin hun hnot]
    rfl
  rw [sum_over_sub validSections cfg.Sections.Order hsnd (by decide) hsec hzero]
  have hback : validSections.map
        (fun s =>
          (sectionItems (collectUncategorized cat cfg.Sections.Order) s :
            Multiset Item)) =
      (validSections.map
        (sectionItems (collectUncategorized cat cfg.Sections.Order))).map
          Multiset.ofList := by
    rw [List.map_map]
    rfl
  rw [hback, ← coe_flatten_eq_sum, ← catItemsL_eq]
  exact collect_items cat cfg.Sections.Order

/-- A unit with one exported function. -/
def c1Unit : List Decl := [.func { name := "Helper" }]

/-- A valid append-mode configuration whose order lists only `imports`. -/
def c1Cfg : Config :=
  { Sections := { Order := ["imports"] }
    Types :=
      { TypeLayout := ["typedef", "constructors", "exported_methods", "unexported_methods"]
        EnumLayout := ["typedef", "iota", "exported_methods", "unexported_methods"] }
    Behavior := { Mode := "append" } }

/-- Counterexample to C1 as stated: in `append` mode with the valid order
`["imports"]`, the function `Helper` is moved into `Uncategorized` by the
collect step, but `uncategorized` itself is not in the order, so the
output is empty — the input item is silently lost even though the mode is
not `drop`. -/
theorem conservation_counterexample :
    validate c1Cfg = none
      ∧ fileWithConfig c1Unit c1Cfg = []
      ∧ itemsOf c1Unit ≠ 0
      ∧ itemsOf (fileWithConfig c1Unit c1Cfg) = 0 := by
  decide

/-- The default section order with `append` mode and complete layouts. -/
def c1WCfg : Config :=
  { Sections := { Order := validSections }
    Types :=
      { TypeLayout := ["typedef", "constructors", "exported_methods", "unexported_methods"]
        EnumLayout := ["typedef", "iota", "exported_methods", "unexported_methods"] }
    Behavior := { Mode := "append" } }

/-- Witness: the amended conservation applied to the categorization of
`c1Unit` under the hygienic configuration `c1WCfg`. -/
theorem conservation_witness :
    itemsOf (reassembleDeclarationsWithConfig (categorizeDeclarations c1Unit) c1WCfg) =
      catItems (categorizeDeclarations c1Unit) :=
  conservation (categorizeDeclarations c1Unit) c1WCfg (Or.inr (Or.inr rfl)) (by decide)
    (by decide) (by decide) (by decide) (by decide) (by decide) (by decide)

/-- Witness: the amended characterisation applied to `c5Unit` — the
receiver of the earlier method makes `Foo` known, so `NewFoo` is filed as
a constructor. -/
theorem constructor_filing_witness :
    (constructorsOf
          (categorizeStep (pass2At [Decl.func c5Method] [Decl.func c5New])
            (.func c5New)).arena "Foo" =
        constructorsOf (pass2At [Decl.func c5Method] [Decl.func c5New]).arena "Foo"
          ++ [c5New]
      ∧ (categorizeStep (pass2At [Decl.func c5Method] [Decl.func c5New])
            (.func c5New)).ExportedFuncs =
          (pass2At [Decl.func c5Method] [Decl.func c5New]).ExportedFuncs
      ∧ (categorizeStep (pass2At [Decl.func c5Method] [Decl.func c5New])
            (.func c5New)).UnexportedFuncs =
          (pass2At [Decl.func c5Method] [Decl.func c5New]).UnexportedFuncs) :=
  (constructor_filing [Decl.func c5Method] [] c5New "Foo" rfl (by decide)
      (by decide)).mpr
    ⟨by decide, by decide, by decide, by decide⟩

end GoReorder
